import Mathlib

/-!
Synchronizer: fan-in merger, dispatch loops and lifecycle.

A verification development for `synchronizer/synchronizer.go`.

Goroutines are modelled as small program-counter machines and the Go
scheduler as a nondeterministic choice of the next action; every action is
one atomic channel operation (or one `select` outcome) of one goroutine.
Channels are modelled by the FIFO of values sent and not yet received plus a
closed flag; `ctx.Done()` is a Boolean that is set once.
-/

namespace synchronizer

/-! ## Channels and `select` -/

/-- A channel as seen from its receiving end: the values sent and not yet
received (buffered values or blocked senders, oldest first) and whether the
channel has been closed. -/
structure Chan (α : Type) where
  queue : List α
  closed : Bool
  deriving DecidableEq

/-- The freshly made channel of `make(chan T)`: nothing pending, open. -/
def Chan.fresh {α : Type} : Chan α := ⟨[], false⟩

/-! ## mergeChannels (lines 143-175) -/

/-- Program counter of one forwarder goroutine (lines 149-166). -/
inductive Fwd (α : Type) where
  /-- Blocked in the outer `select` (line 152). -/
  | recv
  /-- Holds `ticket` and is blocked in the inner `select` (line 157). -/
  | send (ticket : α)
  /-- Returned; the deferred `wg.Done()` has run. -/
  | done
  deriving DecidableEq

/-- Program counter of the supervising goroutine (lines 169-172). -/
inductive Sup where
  /-- Blocked in `wg.Wait()`. -/
  | wait
  /-- Past `wg.Wait()`, about to run `close(out)`. -/
  | close
  /-- Returned. -/
  | done
  deriving DecidableEq

/-- State of one call of `mergeChannels`: the context, the input channels,
one forwarder per input, the wait group, the supervisor and the output
channel, together with history variables that record what happened. -/
structure Merger (α : Type) where
  /-- The value of `len(chans)`. -/
  n : Nat
  /-- Whether `ctx.Done()` is closed. -/
  cancelled : Bool
  /-- The input channels `chans[i]`. -/
  ins : Nat → Chan α
  /-- The forwarder of input `i`. -/
  fwd : Nat → Fwd α
  /-- The counter of `wg`. -/
  wg : Int
  sup : Sup
  /-- Whether `out` is closed. -/
  outClosed : Bool
  /-- Whether a Go runtime panic happened (send on closed channel, close of a
  closed channel, negative wait-group counter). -/
  panicked : Bool
  /-- History: every value ever sent on input `i`, in order. -/
  sent : Nat → List α
  /-- History: values received from the inputs, tagged with the input. -/
  taken : List (Nat × α)
  /-- History: values received from `out` by the consumer, tagged with the
  input they came from, in order of delivery. -/
  out : List (Nat × α)
  /-- History: values a forwarder received and then abandoned. -/
  dropped : List (Nat × α)
  /-- History: how many times `close(out)` ran. -/
  closes : Nat

/-- The state right after `mergeChannels(ctx, chans...)` returns (lines
144-174): `out` is made, `wg.Add(len(chans))` has run, one forwarder per
input and the supervisor are spawned and none has run yet. -/
def mergeChannels {α : Type} (ctx : Bool) (chans : List (Chan α)) : Merger α where
  n := chans.length
  cancelled := ctx
  ins := fun i => chans.getD i Chan.fresh
  fwd := fun _ => Fwd.recv
  wg := chans.length
  sup := Sup.wait
  outClosed := false
  panicked := false
  sent := fun i => (chans.getD i Chan.fresh).queue
  taken := []
  out := []
  dropped := []
  closes := 0

/-- Actions of the merger and of its environment. -/
inductive MAct (α : Type) where
  /-- Environment: a producer sends `e` on input `i`. -/
  | emit (i : Nat) (e : α)
  /-- Environment: the producer closes input `i`. -/
  | closeIn (i : Nat)
  /-- Environment: the context is cancelled. -/
  | cancel
  /-- Forwarder `i`: `case ticket, ok := <-c` with `ok` true (line 153). -/
  | take (i : Nat)
  /-- Forwarder `i`: `<-c` yields `ok` false, `return` (lines 154-156). -/
  | seeClosed (i : Nat)
  /-- Forwarder `i`: outer `case <-ctx.Done(): return` (lines 162-163). -/
  | seeDoneRecv (i : Nat)
  /-- Forwarder `i`: `case out <- ticket` completes, the consumer has the
  ticket (line 158). -/
  | deliver (i : Nat)
  /-- Forwarder `i`: inner `case <-ctx.Done(): return` (lines 159-160). -/
  | seeDoneSend (i : Nat)
  /-- Supervisor: `wg.Wait()` returns (line 170). -/
  | wgWait
  /-- Supervisor: `close(out)` (line 171). -/
  | closeOut
  deriving DecidableEq

/-- Whether the action is taken by the environment of the merger. -/
def MAct.isEnv {α : Type} : MAct α → Bool
  | .emit _ _ => true
  | .closeIn _ => true
  | .cancel => true
  | _ => false

/-- Whether the action is a delivery into `out`, which needs the consumer. -/
def MAct.isDeliver {α : Type} : MAct α → Bool
  | .deliver _ => true
  | _ => false

/-- Forwarder `i` returns: the deferred `wg.Done()` runs (line 150). A
counter that would become negative is a runtime panic. -/
def Merger.ret {α : Type} (m : Merger α) (i : Nat) : Merger α :=
  { m with
    fwd := Function.update m.fwd i Fwd.done
    wg := m.wg - 1
    panicked := m.panicked || decide (m.wg - 1 < 0) }

/-- One atomic action; `none` when the action is not enabled (the goroutine
is blocked, is elsewhere in its code, or the program has panicked). -/
def Merger.step {α : Type} (m : Merger α) (a : MAct α) : Option (Merger α) :=
  if m.panicked then none else
  match a with
  | .emit i e =>
    if i < m.n ∧ (m.ins i).closed = false then
      some { m with
        ins := Function.update m.ins i ⟨(m.ins i).queue ++ [e], false⟩
        sent := Function.update m.sent i (m.sent i ++ [e]) }
    else none
  | .closeIn i =>
    if i < m.n ∧ (m.ins i).closed = false then
      some { m with ins := Function.update m.ins i ⟨(m.ins i).queue, true⟩ }
    else none
  | .cancel => some { m with cancelled := true }
  | .take i =>
    if i < m.n then
      match m.fwd i, (m.ins i).queue with
      | .recv, e :: q =>
        some { m with
          ins := Function.update m.ins i ⟨q, (m.ins i).closed⟩
          fwd := Function.update m.fwd i (Fwd.send e)
          taken := m.taken ++ [(i, e)] }
      | _, _ => none
    else none
  | .seeClosed i =>
    if i < m.n then
      match m.fwd i, (m.ins i).queue, (m.ins i).closed with
      | .recv, [], true => some (m.ret i)
      | _, _, _ => none
    else none
  | .seeDoneRecv i =>
    if i < m.n ∧ m.cancelled = true then
      match m.fwd i with
      | .recv => some (m.ret i)
      | _ => none
    else none
  | .deliver i =>
    if i < m.n then
      match m.fwd i with
      | .send t =>
        if m.outClosed then some { m with panicked := true }
        else some { m with
          fwd := Function.update m.fwd i Fwd.recv
          out := m.out ++ [(i, t)] }
      | _ => none
    else none
  | .seeDoneSend i =>
    if i < m.n ∧ m.cancelled = true then
      match m.fwd i with
      | .send t => some { m.ret i with dropped := m.dropped ++ [(i, t)] }
      | _ => none
    else none
  | .wgWait =>
    if m.sup = Sup.wait ∧ m.wg = 0 then some { m with sup := Sup.close }
    else none
  | .closeOut =>
    if m.sup = Sup.close then
      if m.outClosed then some { m with panicked := true, sup := Sup.done }
      else some { m with outClosed := true, closes := m.closes + 1, sup := Sup.done }
    else none

/-- Runs a schedule; an action that is not enabled is skipped. -/
def Merger.exec {α : Type} (m : Merger α) : List (MAct α) → Merger α
  | [] => m
  | a :: as => Merger.exec ((m.step a).getD m) as

/-- Runs a schedule; `none` when some action of it is not enabled. -/
def Merger.run {α : Type} (m : Merger α) : List (MAct α) → Option (Merger α)
  | [] => some m
  | a :: as => (m.step a).bind fun m' => Merger.run m' as

/-- The states an execution started in `m₀` can be in. -/
inductive Merger.Reach {α : Type} (m₀ : Merger α) : Merger α → Prop where
  | init : Merger.Reach m₀ m₀
  | step {m m' : Merger α} (a : MAct α) :
      Merger.Reach m₀ m → m.step a = some m' → Merger.Reach m₀ m'

/-- The ticket forwarder `i` holds in flight, if any. -/
def Fwd.held {α : Type} : Fwd α → List α
  | .send t => [t]
  | _ => []

/-- The payloads in a tagged history that belong to input `i`, in order. -/
def fromInput {α : Type} (i : Nat) (l : List (Nat × α)) : List α :=
  (l.filter fun p => p.1 = i).map Prod.snd

/-- The tickets held in flight by the forwarders of inputs `0 .. k-1`, each
tagged with its input. -/
def inflight {α : Type} (fwd : Nat → Fwd α) : Nat → List (Nat × α)
  | 0 => []
  | k + 1 => inflight fwd k ++ (fwd k).held.map fun t => (k, t)

/-- How many of the forwarders `0 .. k-1` have not returned. -/
def live {α : Type} (fwd : Nat → Fwd α) : Nat → Nat
  | 0 => 0
  | k + 1 => live fwd k + (match fwd k with | .done => 0 | _ => 1)

/-- Everything sent on the inputs `0 .. k-1`. -/
def allSent {α : Type} (sent : Nat → List α) : Nat → List α
  | 0 => []
  | k + 1 => allSent sent k ++ sent k

/-- Steps a forwarder at this program point still has to make before it has
returned, at most. -/
def Fwd.weight {α : Type} : Fwd α → Nat
  | .recv => 1
  | .send _ => 2
  | .done => 0

/-- Steps the supervisor still has to make. -/
def Sup.weight : Sup → Nat
  | .wait => 2
  | .close => 1
  | .done => 0

/-- Work left at the inputs `0 .. k-1`: two steps for each pending value
(take it, hand it on) and the steps of the forwarder. -/
def work {α : Type} (ins : Nat → Chan α) (fwd : Nat → Fwd α) : Nat → Nat
  | 0 => 0
  | k + 1 => work ins fwd k + 2 * (ins k).queue.length + (fwd k).weight

/-- A bound on the number of steps the goroutines of the merger can make
while the environment stays quiet. -/
def Merger.fuel {α : Type} (m : Merger α) : Nat :=
  work m.ins m.fwd m.n + m.sup.weight

/-- The invariant of the merger: no panic; the wait-group counter is the
number of forwarders that have not returned; per input, what was sent is
what was delivered, then what is in flight, then what was abandoned, then
what is still pending; a forwarder abandons at most its last ticket and only
after cancellation; a forwarder has returned only for a reason; and the
supervisor closes `out` once. -/
structure Merger.Inv {α : Type} (m : Merger α) : Prop where
  noPanic : m.panicked = false
  wgLive : m.wg = live m.fwd m.n
  acct : ∀ i, i < m.n → m.sent i =
    fromInput i m.out ++ (m.fwd i).held ++ fromInput i m.dropped ++ (m.ins i).queue
  takenEq : ∀ i, i < m.n → fromInput i m.taken =
    fromInput i m.out ++ (m.fwd i).held ++ fromInput i m.dropped
  dropDone : ∀ i, i < m.n → fromInput i m.dropped ≠ [] → m.fwd i = Fwd.done
  dropCancel : m.dropped ≠ [] → m.cancelled = true
  doneWhy : ∀ i, i < m.n → m.fwd i = Fwd.done →
    m.cancelled = true ∨ ((m.ins i).closed = true ∧ (m.ins i).queue = [])
  tagsLt : ∀ p, p ∈ m.out → p.1 < m.n
  supWait : m.sup = Sup.wait → m.outClosed = false ∧ m.closes = 0
  supClose : m.sup = Sup.close → m.wg = 0 ∧ m.outClosed = false ∧ m.closes = 0
  supDone : m.sup = Sup.done → m.wg = 0 ∧ m.outClosed = true ∧ m.closes = 1
  ledger : m.taken.Perm (m.out ++ inflight m.fwd m.n ++ m.dropped)

/-! ## The dispatch loops (lines 83-101 and 124-140) -/

/-- Messages written to the logger. -/
inductive Msg where
  /-- Info "Sync start". -/
  | syncStart
  /-- Info "Sync stop". -/
  | syncStop
  /-- Info "Components 1/2". -/
  | componentTickets
  /-- Info "Components 2/2". -/
  | componentAccounts
  /-- Error "Failed to start event listener" with the chain id. -/
  | listenerFailed (chainId : Nat)
  /-- Error "Failed to start event listener" of the account pipeline. -/
  | factoryListenerFailed
  /-- Info "Synchronize to a new ticket". -/
  | newTicket
  /-- Info "Synchronize to a new account mapping". -/
  | newMapping
  /-- Warn "Add a new account mapping error". -/
  | addMappingError
  /-- Warn "Stopping Sync due to context cancellation". -/
  | stopping
  deriving DecidableEq

/-- Outcome of one execution of the `select` of a dispatch loop. -/
inductive Sel (α : Type) where
  /-- The receive case ran with `ok` true and value `e`. -/
  | recv (e : α)
  /-- The receive case ran with `ok` false. -/
  | closed
  /-- The `<-s.ctx.Done()` case ran. -/
  | done
  /-- The `default` case ran. -/
  | dflt
  deriving DecidableEq

/-- Which outcomes Go allows for `select { case v, ok := <-c: ... case
<-ctx.Done(): ... default: }`: a communication case can run when it is
ready, `default` runs only when no communication case is ready. -/
def Sel.ready {α : Type} [DecidableEq α] (c : Chan α) (cancelled : Bool) : Sel α → Bool
  | .recv e => c.queue.head? = some e
  | .closed => c.queue.isEmpty && c.closed
  | .done => cancelled
  | .dflt => c.queue.isEmpty && !c.closed && !cancelled

/-- Which outcomes Go allows for the outer `select` of a forwarder (lines
152-164), which has the same two communication cases and no `default`. -/
def Sel.readyBlocking {α : Type} [DecidableEq α] (c : Chan α) (cancelled : Bool) : Sel α → Bool
  | .dflt => false
  | o => o.ready c cancelled

/-- State of a dispatch loop: whether it has returned, the downstream store
(`s.pool` or `s.state`), and history variables. -/
structure Loop (α σ : Type) where
  /-- Whether the loop has executed `return`. -/
  exited : Bool
  /-- The downstream consumer. -/
  store : σ
  /-- History: the arguments of the apply calls made, oldest first. -/
  applied : List α
  /-- What the loop has logged. -/
  log : List Msg
  /-- History: iterations that ran the empty `default` case. -/
  spins : Nat

/-- A loop that has not run yet. -/
def Loop.new {α σ : Type} (store : σ) : Loop α σ := ⟨false, store, [], [], 0⟩

/-- One iteration of the loop of `syncTickets` (lines 83-101). The result of
`s.pool.AddTicket(ticket)` is not looked at. -/
def syncTicketsIter {α π : Type} (addTicket : π → α → π × Bool)
    (l : Loop α π) : Sel α → Loop α π
  | .recv ticket =>
    { l with
      log := l.log ++ [Msg.newTicket]
      store := (addTicket l.store ticket).1
      applied := l.applied ++ [ticket] }
  | .closed => { l with exited := true }
  | .done => { l with log := l.log ++ [Msg.stopping], exited := true }
  | .dflt => { l with spins := l.spins + 1 }

/-- One iteration of the loop of `syncAccountCreated` (lines 124-140); the
Boolean returned by `addNewMapping` is `err != nil`. -/
def syncAccountCreatedIter {β σ : Type} (addNewMapping : σ → β → σ × Bool)
    (l : Loop β σ) : Sel β → Loop β σ
  | .recv mapping =>
    let r := addNewMapping l.store mapping
    { l with
      log := l.log ++ [Msg.newMapping] ++ (if r.2 then [Msg.addMappingError] else [])
      store := r.1
      applied := l.applied ++ [mapping] }
  | .closed => { l with exited := true }
  | .done => { l with log := l.log ++ [Msg.stopping], exited := true }
  | .dflt => { l with spins := l.spins + 1 }

/-- Runs a loop through a sequence of `select` outcomes; nothing runs after
the loop has returned. -/
def Loop.runs {α σ : Type} (iter : Loop α σ → Sel α → Loop α σ)
    (l : Loop α σ) : List (Sel α) → Loop α σ
  | [] => l
  | o :: os => if l.exited then l else Loop.runs iter (iter l o) os

/-- One iteration of a dispatch loop attached to channel `c`: the outcome
must be one Go allows in the current state; a receive removes the head of
the channel. `none` when the loop has returned or the outcome is not
possible. -/
def dispatch {α σ : Type} [DecidableEq α] (iter : Loop α σ → Sel α → Loop α σ)
    (cancelled : Bool) (c : Chan α) (l : Loop α σ) (o : Sel α) :
    Option (Chan α × Loop α σ) :=
  if l.exited = false ∧ o.ready c cancelled = true then
    some (match o with
      | .recv _ => (⟨c.queue.tail, c.closed⟩, iter l o)
      | _ => (c, iter l o))
  else none

/-- The events of the receive outcomes of a trace, in order. -/
def received {α : Type} : List (Sel α) → List α
  | [] => []
  | .recv e :: os => e :: received os
  | _ :: os => received os

/-- Whether the outcome makes the loop return. -/
def Sel.terminal {α : Type} : Sel α → Bool
  | .closed => true
  | .done => true
  | _ => false

/-! ## The Synchronizer (lines 15-141) -/

/-- A goroutine that runs external code (a watcher call). -/
inductive Task where
  | running
  | exited
  deriving DecidableEq

/-- Program counter of the goroutine of lines 114-122. -/
inductive Inj where
  /-- In `time.Sleep(3 * time.Second)`. -/
  | sleeping
  /-- Blocked in `ch <- mappingInsert` (line 121). -/
  | sending
  /-- Returned. -/
  | done
  deriving DecidableEq

/-- The external collaborators: the two consumer capabilities (the Boolean
is `err != nil`) and the mapping built at lines 117-120. -/
structure Deps (α β π σ : Type) where
  addTicket : π → α → π × Bool
  addNewMapping : σ → β → σ × Bool
  mappingInsert : β

/-- State of a `Synchronizer` and of the goroutines it has started. -/
structure Synchronizer (α β π σ : Type) where
  /-- The chain ids of `cfg.EthereumCfg.Networks`. -/
  nets : List Nat
  /-- Whether `Start()` has run. -/
  started : Bool
  /-- Whether `s.ctx` is cancelled. -/
  cancelled : Bool
  /-- How many calls of `Stop()` have returned. -/
  stops : Nat
  /-- Whether a goroutine panicked. -/
  panicked : Bool
  /-- What `Start`, `Stop` and the adapter goroutines have logged. -/
  log : List Msg
  /-- The adapter goroutine of network `k` (lines 65-69) for
  `k < nets.length`, and the mock goroutine (lines 73-78) at `nets.length`;
  the body of `insertTicket` is not in this file, so the mock goroutine is
  treated as one more producer on its channel. -/
  tsrc : Nat → Task
  /-- The merger of the ticket pipeline (line 81) with its input channels;
  it holds its own view of `s.ctx`. -/
  m : Merger α
  /-- The loop of `syncTickets`. -/
  tloop : Loop α π
  /-- The adapter goroutine of lines 108-112. -/
  asrc : Task
  /-- The goroutine of lines 114-122. -/
  inj : Inj
  /-- The channel `ch` of line 106, unbuffered: the pending sends, each
  marked with whether the sender is the goroutine of lines 114-122. -/
  ach : Chan (Bool × β)
  /-- The loop of `syncAccountCreated`. -/
  aloop : Loop β σ

/-- The result of `NewSynchronizer(pool, ethereum, state, cfg)` (lines
26-40): a fresh, active context and nothing started. -/
def NewSynchronizer {α β π σ : Type} (pool : π) (state : σ) (nets : List Nat) :
    Synchronizer α β π σ where
  nets := nets
  started := false
  cancelled := false
  stops := 0
  panicked := false
  log := []
  tsrc := fun _ => Task.running
  m := mergeChannels false []
  tloop := Loop.new pool
  asrc := Task.running
  inj := Inj.sleeping
  ach := Chan.fresh
  aloop := Loop.new state

/-- The effect of `Stop()` (lines 46-49): log, then `s.cancelCtx()`, then
return. Cancelling sets the context of every holder; `cancelCtx` on a
cancelled context does nothing. -/
def Synchronizer.Stop {α β π σ : Type} (s : Synchronizer α β π σ) : Synchronizer α β π σ :=
  { s with
    log := s.log ++ [Msg.syncStop]
    cancelled := true
    m := { s.m with cancelled := true }
    stops := s.stops + 1 }

/-- The set-up part of `syncTickets` (lines 57-81): one channel and one
adapter goroutine per network, the mock goroutine and its channel, then
`mergeChannels(s.ctx, chans...)`. The mock goroutine appends its channel
during the sleep of line 79, so the merger gets `len(Networks) + 1` inputs.
What remains of `syncTickets` is its loop, `syncTicketsIter`. -/
def Synchronizer.syncTickets {α β π σ : Type} (s : Synchronizer α β π σ) : Synchronizer α β π σ :=
  { s with
    log := s.log ++ [Msg.componentTickets]
    m := mergeChannels s.cancelled (List.replicate (s.nets.length + 1) Chan.fresh) }

/-- The set-up part of `syncAccountCreated` (lines 104-122): the channel `ch`
is made and the two goroutines are spawned; none has run yet. What remains
is the loop, `syncAccountCreatedIter`. -/
def Synchronizer.syncAccountCreated {α β π σ : Type} (s : Synchronizer α β π σ) :
    Synchronizer α β π σ :=
  { s with
    log := s.log ++ [Msg.componentAccounts]
    ach := Chan.fresh
    asrc := Task.running
    inj := Inj.sleeping }

/-- The effect of `sync()` (lines 51-55): log, then start both pipelines. -/
def Synchronizer.sync {α β π σ : Type} (s : Synchronizer α β π σ) : Synchronizer α β π σ :=
  ({ s with started := true, log := s.log ++ [Msg.syncStart] }).syncTickets.syncAccountCreated

/-- The effect of `Start()` (lines 42-44). -/
def Synchronizer.Start {α β π σ : Type} (s : Synchronizer α β π σ) : Synchronizer α β π σ :=
  s.sync

/-- Actions of the Synchronizer, its goroutines and its environment. -/
inductive Act (α β : Type) where
  /-- The owner calls `Start()`. -/
  | start
  /-- The owner calls `Stop()`. -/
  | stop
  /-- Ticket source `k` sends `e` on its channel. -/
  | tEmit (k : Nat) (e : α)
  /-- Ticket source `k` closes its channel. -/
  | tClose (k : Nat)
  /-- The call `WatchEntryPointEvent` of network `k` returns an error
  (lines 66-68). -/
  | tFail (k : Nat)
  /-- Ticket source `k` returns without error. -/
  | tExit (k : Nat)
  /-- A step of a forwarder or of the supervisor of the merger, other than
  a delivery. -/
  | mrg (a : MAct α)
  /-- The loop of `syncTickets` receives the ticket forwarder `i` holds and
  calls `AddTicket` (lines 85-95). -/
  | tRecv (i : Nat)
  /-- The loop of `syncTickets` sees `ticketChannel` closed (lines 86-88). -/
  | tClosed
  /-- The loop of `syncTickets` runs the `ctx.Done()` case (lines 96-98). -/
  | tDone
  /-- The loop of `syncTickets` runs the `default` case (line 99). -/
  | tSpin
  /-- The account watcher sends `e` on `ch`. -/
  | aEmit (e : β)
  /-- The account watcher closes `ch`. -/
  | aClose
  /-- The call `WatchAAFactoryEvent` returns an error (lines 109-111). -/
  | aFail
  /-- The call `WatchAAFactoryEvent` returns without error. -/
  | aExit
  /-- The sleep of line 116 ends: the goroutine reaches `ch <- mappingInsert`. -/
  | injWake
  /-- The loop of `syncAccountCreated` receives the oldest pending send and
  calls `AddNewMapping` (lines 126-134). -/
  | aRecv
  /-- The loop of `syncAccountCreated` sees `ch` closed (lines 127-129). -/
  | aClosed
  /-- The loop of `syncAccountCreated` runs the `ctx.Done()` case. -/
  | aDone
  /-- The loop of `syncAccountCreated` runs the `default` case (line 138). -/
  | aSpin
  deriving DecidableEq

/-- One atomic action of the whole system; `none` when it is not enabled. -/
def Synchronizer.step {α β π σ : Type} (d : Deps α β π σ) (s : Synchronizer α β π σ) (a : Act α β) :
    Option (Synchronizer α β π σ) :=
  if s.panicked = true ∨ s.m.panicked = true then none else
  match a with
  | .start => if s.started then none else some s.Start
  | .stop => some s.Stop
  | .tEmit k e =>
    if s.started = true ∧ k ≤ s.nets.length ∧ s.tsrc k = Task.running then
      (s.m.step (.emit k e)).map fun m' => { s with m := m' }
    else none
  | .tClose k =>
    if s.started = true ∧ k ≤ s.nets.length ∧ s.tsrc k = Task.running then
      (s.m.step (.closeIn k)).map fun m' => { s with m := m' }
    else none
  | .tFail k =>
    if s.started = true ∧ k < s.nets.length ∧ s.tsrc k = Task.running then
      some { s with
        tsrc := Function.update s.tsrc k Task.exited
        log := s.log ++ [Msg.listenerFailed (s.nets.getD k 0)] }
    else none
  | .tExit k =>
    if s.started = true ∧ k ≤ s.nets.length ∧ s.tsrc k = Task.running then
      some { s with tsrc := Function.update s.tsrc k Task.exited }
    else none
  | .mrg a =>
    if s.started = true ∧ a.isEnv = false ∧ a.isDeliver = false then
      (s.m.step a).map fun m' => { s with m := m' }
    else none
  | .tRecv i =>
    if s.started = true ∧ s.tloop.exited = false then
      match s.m.fwd i with
      | .send t =>
        (s.m.step (.deliver i)).map fun m' =>
          { s with m := m', tloop := syncTicketsIter d.addTicket s.tloop (.recv t) }
      | _ => none
    else none
  | .tClosed =>
    if s.started = true ∧ s.tloop.exited = false ∧ s.m.outClosed = true then
      some { s with tloop := syncTicketsIter d.addTicket s.tloop .closed }
    else none
  | .tDone =>
    if s.started = true ∧ s.tloop.exited = false ∧ s.cancelled = true then
      some { s with tloop := syncTicketsIter d.addTicket s.tloop .done }
    else none
  | .tSpin =>
    if s.started = true ∧ s.tloop.exited = false ∧ s.m.outClosed = false ∧
        s.cancelled = false ∧ (inflight s.m.fwd s.m.n).isEmpty = true then
      some { s with tloop := syncTicketsIter d.addTicket s.tloop .dflt }
    else none
  | .aEmit e =>
    if s.started = true ∧ s.asrc = Task.running ∧ s.ach.closed = false then
      some { s with ach := ⟨s.ach.queue ++ [(false, e)], false⟩ }
    else none
  | .aClose =>
    if s.started = true ∧ s.asrc = Task.running ∧ s.ach.closed = false then
      if s.inj = Inj.sending then some { s with panicked := true }
      else some { s with ach := ⟨s.ach.queue, true⟩ }
    else none
  | .aFail =>
    if s.started = true ∧ s.asrc = Task.running then
      some { s with asrc := Task.exited, log := s.log ++ [Msg.factoryListenerFailed] }
    else none
  | .aExit =>
    if s.started = true ∧ s.asrc = Task.running then
      some { s with asrc := Task.exited }
    else none
  | .injWake =>
    if s.started = true ∧ s.inj = Inj.sleeping then
      if s.ach.closed then some { s with panicked := true }
      else some { s with
        inj := Inj.sending
        ach := ⟨s.ach.queue ++ [(true, d.mappingInsert)], false⟩ }
    else none
  | .aRecv =>
    if s.started = true ∧ s.aloop.exited = false then
      match s.ach.queue with
      | (byInj, mapping) :: q =>
        some { s with
          ach := ⟨q, s.ach.closed⟩
          inj := if byInj then Inj.done else s.inj
          aloop := syncAccountCreatedIter d.addNewMapping s.aloop (.recv mapping) }
      | [] => none
    else none
  | .aClosed =>
    if s.started = true ∧ s.aloop.exited = false ∧ s.ach.queue.isEmpty = true ∧
        s.ach.closed = true then
      some { s with aloop := syncAccountCreatedIter d.addNewMapping s.aloop .closed }
    else none
  | .aDone =>
    if s.started = true ∧ s.aloop.exited = false ∧ s.cancelled = true then
      some { s with aloop := syncAccountCreatedIter d.addNewMapping s.aloop .done }
    else none
  | .aSpin =>
    if s.started = true ∧ s.aloop.exited = false ∧ s.ach.queue.isEmpty = true ∧
        s.ach.closed = false ∧ s.cancelled = false then
      some { s with aloop := syncAccountCreatedIter d.addNewMapping s.aloop .dflt }
    else none

/-- Runs a schedule; an action that is not enabled is skipped. -/
def Synchronizer.exec {α β π σ : Type} (d : Deps α β π σ) (s : Synchronizer α β π σ) :
    List (Act α β) → Synchronizer α β π σ
  | [] => s
  | a :: as => Synchronizer.exec d ((s.step d a).getD s) as

/-- The states an execution started in `s₀` can be in. -/
inductive Synchronizer.Reach {α β π σ : Type} (d : Deps α β π σ) (s₀ : Synchronizer α β π σ) :
    Synchronizer α β π σ → Prop where
  | init : Synchronizer.Reach d s₀ s₀
  | step {s s' : Synchronizer α β π σ} (a : Act α β) :
      Synchronizer.Reach d s₀ s → s.step d a = some s' → Synchronizer.Reach d s₀ s'

/-- Whether the action belongs to the adapter goroutine of ticket source
`k` (its watcher call sending, closing, failing or returning). -/
def Act.ofTicketSource {α β : Type} (k : Nat) : Act α β → Bool
  | .tEmit j _ => j = k
  | .tClose j => j = k
  | .tFail j => j = k
  | .tExit j => j = k
  | _ => false

/-- Whether the action belongs to the adapter goroutine of the account
pipeline. -/
def Act.ofAccountSource {α β : Type} : Act α β → Bool
  | .aEmit _ => true
  | .aClose => true
  | .aFail => true
  | .aExit => true
  | _ => false

/-- The state with the log and the adapter goroutine of ticket source `k`
left out. -/
def Synchronizer.maskTicketSource {α β π σ : Type} (k : Nat) (s : Synchronizer α β π σ) :
    Synchronizer α β π σ :=
  { s with log := [], tsrc := Function.update s.tsrc k Task.exited }

/-- The state with the log and the adapter goroutine of the account pipeline
left out. -/
def Synchronizer.maskAccountSource {α β π σ : Type} (s : Synchronizer α β π σ) :
    Synchronizer α β π σ :=
  { s with log := [], asrc := Task.exited }

/-! ## Concrete instances used in the examples -/

/-- Collaborators used in the examples: both stores are the list of what
was added; `AddNewMapping` fails on the mapping `2`; the mock mapping is `7`. -/
def demoDeps : Deps Nat Nat (List Nat) (List Nat) where
  addTicket := fun p t => (p ++ [t], false)
  addNewMapping := fun st mp => (st ++ [mp], mp == 2)
  mappingInsert := 7

/-- A Synchronizer with one network and empty stores. -/
def demoSync : Synchronizer Nat Nat (List Nat) (List Nat) := NewSynchronizer [] [] [1]

/-- A schedule of a merger with two inputs: each source sends three tickets
and closes, the forwarders interleave, the supervisor closes the output. -/
def sixTickets : List (MAct Nat) :=
  [.emit 0 11, .emit 1 21, .take 0, .emit 0 12, .take 1, .deliver 1, .deliver 0,
   .emit 1 22, .emit 0 13, .closeIn 0, .take 0, .take 1, .deliver 0, .emit 1 23,
   .closeIn 1, .deliver 1, .take 1, .take 0, .deliver 0, .deliver 1,
   .seeClosed 1, .seeClosed 0, .wgWait, .closeOut]

/-- The merger of two fresh channels under the active context. -/
def twoInputs : Merger Nat := mergeChannels false [Chan.fresh, Chan.fresh]

/-- The merger of a single fresh channel under the active context. -/
def oneInput : Merger Nat := mergeChannels false [Chan.fresh]

/-- The merger of no channel at all under the active context. -/
def noInputs : Merger Nat := mergeChannels false []

/-! ## Lemmas on the history functions -/

section MergerProofs

variable {α : Type}

@[simp] theorem fromInput_nil (i : Nat) : fromInput i ([] : List (Nat × α)) = [] := rfl

@[simp] theorem fromInput_append (i : Nat) (l₁ l₂ : List (Nat × α)) :
    fromInput i (l₁ ++ l₂) = fromInput i l₁ ++ fromInput i l₂ := by
  simp [fromInput]

theorem fromInput_single (i j : Nat) (e : α) :
    fromInput i [(j, e)] = if j = i then [e] else [] := by
  by_cases h : j = i <;> simp [fromInput, h]

theorem live_update_same (fwd : Nat → Fwd α) (i : Nat) (v : Fwd α) (k : Nat)
    (h : (fwd i = Fwd.done ↔ v = Fwd.done)) :
    live (Function.update fwd i v) k = live fwd k := by
  induction k with
  | zero => rfl
  | succ k ih =>
    simp only [live, ih]
    by_cases hk : k = i
    · subst hk
      simp only [Function.update_same]
      cases hv : v <;> cases hf : fwd k <;> simp_all
    · simp [Function.update_noteq hk]

theorem live_update_ge (fwd : Nat → Fwd α) (i : Nat) (v : Fwd α) (k : Nat)
    (h : k ≤ i) : live (Function.update fwd i v) k = live fwd k := by
  induction k with
  | zero => rfl
  | succ k ih =>
    simp only [live]
    have : k ≠ i := by omega
    rw [Function.update_noteq this, ih (by omega)]

theorem live_update_done (fwd : Nat → Fwd α) (i : Nat) (k : Nat)
    (hi : i < k) (h : fwd i ≠ Fwd.done) :
    live (Function.update fwd i Fwd.done) k + 1 = live fwd k := by
  induction k with
  | zero => omega
  | succ k ih =>
    simp only [live]
    by_cases hk : k = i
    · subst hk
      rw [live_update_ge _ _ _ _ (le_refl _), Function.update_same]
      cases hf : fwd k <;> simp_all
    · have hlt : i < k := by omega
      have := ih hlt
      rw [Function.update_noteq hk]
      omega

theorem live_eq_zero (fwd : Nat → Fwd α) (k : Nat) :
    live fwd k = 0 ↔ ∀ i, i < k → fwd i = Fwd.done := by
  induction k with
  | zero => simp [live]
  | succ k ih =>
    simp only [live, Nat.add_eq_zero, ih]
    constructor
    · rintro ⟨h1, h2⟩ i hi
      by_cases hk : i = k
      · subst hk
        cases hf : fwd i <;> simp_all
      · exact h1 i (by omega)
    · intro h
      refine ⟨fun i hi => h i (by omega), ?_⟩
      rw [h k (by omega)]

theorem inflight_update_ge (fwd : Nat → Fwd α) (i : Nat) (v : Fwd α) (k : Nat)
    (h : k ≤ i) : inflight (Function.update fwd i v) k = inflight fwd k := by
  induction k with
  | zero => rfl
  | succ k ih =>
    simp only [inflight]
    have : k ≠ i := by omega
    rw [Function.update_noteq this, ih (by omega)]

theorem inflight_update_perm (fwd : Nat → Fwd α) (i : Nat) (v : Fwd α) (k : Nat)
    (hi : i < k) :
    (inflight (Function.update fwd i v) k ++ (fwd i).held.map fun t => (i, t)).Perm
      (inflight fwd k ++ v.held.map fun t => (i, t)) := by
  induction k with
  | zero => omega
  | succ k ih =>
    simp only [inflight]
    by_cases hk : k = i
    · subst hk
      rw [inflight_update_ge _ _ _ _ (le_refl _), Function.update_same]
      simp only [List.append_assoc]
      exact List.Perm.append_left _ List.perm_append_comm
    · rw [Function.update_noteq hk]
      have := ih (by omega)
      simp only [List.append_assoc]
      refine (List.Perm.append_left _ List.perm_append_comm).trans ?_
      rw [← List.append_assoc, ← List.append_assoc]
      refine (List.Perm.append_right _ this).trans ?_
      simp only [List.append_assoc]
      exact List.Perm.append_left _ List.perm_append_comm

/-! ## The invariant of the merger -/

theorem Merger.Inv.init (ctx : Bool) (chans : List (Chan α)) :
    (mergeChannels ctx chans).Inv := by
  have hl : ∀ k, live (fun _ => (Fwd.recv : Fwd α)) k = k := by
    intro k; induction k with
    | zero => rfl
    | succ k ih => simp [live, ih]
  have hf : ∀ k, inflight (fun _ => (Fwd.recv : Fwd α)) k = [] := by
    intro k; induction k with
    | zero => rfl
    | succ k ih => simp [inflight, ih, Fwd.held]
  constructor <;> simp [mergeChannels, hl, hf, Fwd.held]

theorem Merger.Inv.emit {m m' : Merger α} (hI : m.Inv) {i : Nat} {e : α}
    (h : m.step (.emit i e) = some m') : m'.Inv := by
  have hp := hI.noPanic
  simp [Merger.step, hp] at h
  obtain ⟨⟨hi, hcl⟩, rfl⟩ := h
  constructor <;> simp only
  · exact hI.wgLive
  · intro j hj
    by_cases hji : j = i
    · subst hji; simp [Function.update_same, hI.acct j hj]
    · simp [Function.update_noteq hji, hI.acct j hj]
  · exact hI.takenEq
  · exact hI.dropDone
  · exact hI.dropCancel
  · intro j hj hd
    rcases hI.doneWhy j hj hd with h1 | h1
    · exact Or.inl h1
    · by_cases hji : j = i
      · subst hji; simp_all
      · right; simpa [Function.update_noteq hji] using h1
  · exact hI.tagsLt
  · exact hI.supWait
  · exact hI.supClose
  · exact hI.supDone
  · exact hI.ledger

theorem Merger.Inv.closeIn {m m' : Merger α} (hI : m.Inv) {i : Nat}
    (h : m.step (.closeIn i) = some m') : m'.Inv := by
  have hp := hI.noPanic
  simp [Merger.step, hp] at h
  obtain ⟨⟨hi, hcl⟩, rfl⟩ := h
  constructor <;> simp only
  · exact hI.wgLive
  · intro j hj
    by_cases hji : j = i
    · subst hji; simp [Function.update_same, hI.acct j hj]
    · simp [Function.update_noteq hji, hI.acct j hj]
  · exact hI.takenEq
  · exact hI.dropDone
  · exact hI.dropCancel
  · intro j hj hd
    rcases hI.doneWhy j hj hd with h1 | h1
    · exact Or.inl h1
    · by_cases hji : j = i
      · subst hji; simp_all
      · right; simpa [Function.update_noteq hji] using h1
  · exact hI.tagsLt
  · exact hI.supWait
  · exact hI.supClose
  · exact hI.supDone
  · exact hI.ledger

theorem Merger.Inv.cancel {m m' : Merger α} (hI : m.Inv)
    (h : m.step .cancel = some m') : m'.Inv := by
  have hp := hI.noPanic
  simp [Merger.step, hp] at h
  subst h
  constructor <;> simp only
  · exact hI.wgLive
  · exact hI.acct
  · exact hI.takenEq
  · exact hI.dropDone
  · intro _; trivial
  · intro j hj hd; exact Or.inl trivial
  · exact hI.tagsLt
  · exact hI.supWait
  · exact hI.supClose
  · exact hI.supDone
  · exact hI.ledger

theorem Merger.Inv.take {m m' : Merger α} (hI : m.Inv) {i : Nat}
    (h : m.step (.take i) = some m') : m'.Inv := by
  have hp := hI.noPanic
  simp [Merger.step, hp] at h
  obtain ⟨hi, h⟩ := h
  split at h
  · rename_i e q hf hq
    simp at h
    subst h
    have hA := hI.acct i hi
    have hT := hI.takenEq i hi
    have hD : fromInput i m.dropped = [] := by
      by_contra hne
      have := hI.dropDone i hi hne
      rw [hf] at this; cases this
    rw [hf, hq, hD] at hA
    rw [hf, hD] at hT
    simp [Fwd.held] at hA hT
    constructor <;> simp only
    · rw [live_update_same _ _ _ _ (by simp [hf])]; exact hI.wgLive
    · intro j hj
      by_cases hji : j = i
      · subst hji
        simp [Function.update_same, hA, hD, Fwd.held]
      · simp [Function.update_noteq hji, hI.acct j hj]
    · intro j hj
      by_cases hji : j = i
      · subst hji
        simp [Function.update_same, hT, hD, Fwd.held, fromInput_single]
      · simp [Function.update_noteq hji, hI.takenEq j hj, fromInput_single, Ne.symm hji]
    · intro j hj hd
      by_cases hji : j = i
      · subst hji; exact absurd hD hd
      · rw [Function.update_noteq hji]; exact hI.dropDone j hj hd
    · exact hI.dropCancel
    · intro j hj hd
      by_cases hji : j = i
      · subst hji; simp [Function.update_same] at hd
      · rw [Function.update_noteq hji] at hd ⊢
        exact hI.doneWhy j hj hd
    · exact hI.tagsLt
    · exact hI.supWait
    · exact hI.supClose
    · exact hI.supDone
    · have hP := inflight_update_perm m.fwd i (Fwd.send e) m.n hi
      rw [hf] at hP
      simp [Fwd.held] at hP
      have h1 : (m.taken ++ [(i, e)]).Perm (m.out ++ inflight m.fwd m.n ++ m.dropped ++ [(i, e)]) :=
        List.Perm.append_right _ hI.ledger
      refine h1.trans ?_
      have h2 : (m.out ++ inflight (Function.update m.fwd i (Fwd.send e)) m.n ++ m.dropped).Perm
          (m.out ++ (inflight m.fwd m.n ++ [(i, e)]) ++ m.dropped) :=
        List.Perm.append_right _ (List.Perm.append_left _ hP)
      refine List.Perm.trans ?_ h2.symm
      simp only [List.append_assoc]
      exact List.Perm.append_left _ (List.Perm.append_left _ List.perm_append_comm)
  · simp at h

theorem Merger.Inv.live_pos {m : Merger α} (hI : m.Inv) {i : Nat} (hi : i < m.n)
    (hf : m.fwd i ≠ Fwd.done) :
    m.wg - 1 = live (Function.update m.fwd i Fwd.done) m.n ∧ m.wg ≠ 0 := by
  have h1 := live_update_done m.fwd i m.n hi hf
  have h2 := hI.wgLive
  constructor <;> omega

/-- The invariant survives the return of a forwarder that holds nothing and
has a reason to return. -/
theorem Merger.Inv.ret_idle {m : Merger α} (hI : m.Inv) {i : Nat} (hi : i < m.n)
    (hf : m.fwd i = Fwd.recv)
    (hw : m.cancelled = true ∨ ((m.ins i).closed = true ∧ (m.ins i).queue = [])) :
    (m.ret i).Inv := by
  have hne : m.fwd i ≠ Fwd.done := by rw [hf]; intro h; cases h
  obtain ⟨hwg, hwg0⟩ := hI.live_pos hi hne
  have hA := hI.acct i hi
  have hT := hI.takenEq i hi
  rw [hf] at hA hT
  constructor <;> simp only [Merger.ret]
  · simp [hI.noPanic, hwg]
  · exact hwg
  · intro j hj
    by_cases hji : j = i
    · subst hji; simpa [Function.update_same, Fwd.held] using hA
    · simp [Function.update_noteq hji, hI.acct j hj]
  · intro j hj
    by_cases hji : j = i
    · subst hji; simpa [Function.update_same, Fwd.held] using hT
    · simp [Function.update_noteq hji, hI.takenEq j hj]
  · intro j hj hd
    by_cases hji : j = i
    · subst hji; simp
    · rw [Function.update_noteq hji]; exact hI.dropDone j hj hd
  · exact hI.dropCancel
  · intro j hj hd
    by_cases hji : j = i
    · subst hji; exact hw
    · rw [Function.update_noteq hji] at hd
      exact hI.doneWhy j hj hd
  · exact hI.tagsLt
  · exact hI.supWait
  · intro hs; exact absurd (hI.supClose hs).1 hwg0
  · intro hs; exact absurd (hI.supDone hs).1 hwg0
  · have hP := inflight_update_perm m.fwd i Fwd.done m.n hi
    rw [hf] at hP
    simp [Fwd.held] at hP
    exact hI.ledger.trans
      (List.Perm.append_right _ (List.Perm.append_left _ hP.symm))

theorem Merger.Inv.seeClosed {m m' : Merger α} (hI : m.Inv) {i : Nat}
    (h : m.step (.seeClosed i) = some m') : m'.Inv := by
  have hp := hI.noPanic
  simp [Merger.step, hp] at h
  obtain ⟨hi, h⟩ := h
  split at h
  · rename_i hf hq hc
    simp at h
    subst h
    exact hI.ret_idle hi hf (Or.inr ⟨hc, hq⟩)
  · simp at h

theorem Merger.Inv.seeDoneRecv {m m' : Merger α} (hI : m.Inv) {i : Nat}
    (h : m.step (.seeDoneRecv i) = some m') : m'.Inv := by
  have hp := hI.noPanic
  simp [Merger.step, hp] at h
  obtain ⟨⟨hi, hc⟩, h⟩ := h
  split at h
  · rename_i hf
    simp at h
    subst h
    exact hI.ret_idle hi hf (Or.inl hc)
  · simp at h

theorem Merger.Inv.out_open {m : Merger α} (hI : m.Inv) {i : Nat} (hi : i < m.n)
    (hf : m.fwd i ≠ Fwd.done) : m.outClosed = false := by
  obtain ⟨_, hwg0⟩ := hI.live_pos hi hf
  cases hs : m.sup
  · exact (hI.supWait hs).1
  · exact absurd (hI.supClose hs).1 hwg0
  · exact absurd (hI.supDone hs).1 hwg0

theorem Merger.Inv.deliver {m m' : Merger α} (hI : m.Inv) {i : Nat}
    (h : m.step (.deliver i) = some m') : m'.Inv := by
  have hp := hI.noPanic
  simp [Merger.step, hp] at h
  obtain ⟨hi, h⟩ := h
  split at h
  · rename_i t hf
    have hne : m.fwd i ≠ Fwd.done := by rw [hf]; intro h; cases h
    have ho := hI.out_open hi hne
    simp [ho] at h
    subst h
    have hA := hI.acct i hi
    have hT := hI.takenEq i hi
    rw [hf] at hA hT
    simp [Fwd.held] at hA hT
    constructor <;> simp only
    · rw [live_update_same _ _ _ _ (by simp [hf])]; exact hI.wgLive
    · intro j hj
      by_cases hji : j = i
      · subst hji
        simp [Function.update_same, hA, Fwd.held, fromInput_single]
      · simp [Function.update_noteq hji, hI.acct j hj, fromInput_single, Ne.symm hji]
    · intro j hj
      by_cases hji : j = i
      · subst hji
        simp [Function.update_same, hT, Fwd.held, fromInput_single]
      · simp [Function.update_noteq hji, hI.takenEq j hj, fromInput_single, Ne.symm hji]
    · intro j hj hd
      by_cases hji : j = i
      · subst hji
        have := hI.dropDone j hj hd
        rw [hf] at this; cases this
      · rw [Function.update_noteq hji]; exact hI.dropDone j hj hd
    · exact hI.dropCancel
    · intro j hj hd
      by_cases hji : j = i
      · subst hji; simp [Function.update_same] at hd
      · rw [Function.update_noteq hji] at hd
        exact hI.doneWhy j hj hd
    · intro p hp'
      rcases List.mem_append.1 hp' with h1 | h1
      · exact hI.tagsLt p h1
      · simp at h1; subst h1; exact hi
    · simpa [ho] using hI.supWait
    · simpa [ho] using hI.supClose
    · simpa [ho] using hI.supDone
    · have hP := inflight_update_perm m.fwd i Fwd.recv m.n hi
      rw [hf] at hP
      simp [Fwd.held] at hP
      refine hI.ledger.trans ?_
      have h2 : (m.out ++ inflight m.fwd m.n ++ m.dropped).Perm
          (m.out ++ (inflight (Function.update m.fwd i Fwd.recv) m.n ++ [(i, t)]) ++ m.dropped) :=
        List.Perm.append_right _ (List.Perm.append_left _ hP.symm)
      refine h2.trans ?_
      simp only [List.append_assoc]
      refine List.Perm.append_left _ ?_
      rw [← List.append_assoc, ← List.append_assoc]
      exact List.Perm.append_right _ List.perm_append_comm
  · simp at h

theorem Merger.Inv.seeDoneSend {m m' : Merger α} (hI : m.Inv) {i : Nat}
    (h : m.step (.seeDoneSend i) = some m') : m'.Inv := by
  have hp := hI.noPanic
  simp [Merger.step, hp] at h
  obtain ⟨⟨hi, hc⟩, h⟩ := h
  split at h
  · rename_i t hf
    simp at h
    subst h
    have hne : m.fwd i ≠ Fwd.done := by rw [hf]; intro h; cases h
    obtain ⟨hwg, hwg0⟩ := hI.live_pos hi hne
    have hD : fromInput i m.dropped = [] := by
      by_contra hne'
      have := hI.dropDone i hi hne'
      rw [hf] at this; cases this
    have hA := hI.acct i hi
    have hT := hI.takenEq i hi
    rw [hf, hD] at hA hT
    simp [Fwd.held] at hA hT
    constructor <;> simp only [Merger.ret]
    · simp [hI.noPanic, hwg]
    · exact hwg
    · intro j hj
      by_cases hji : j = i
      · subst hji
        simp [Function.update_same, hA, hD, Fwd.held, fromInput_single]
      · simp [Function.update_noteq hji, hI.acct j hj, fromInput_single, Ne.symm hji]
    · intro j hj
      by_cases hji : j = i
      · subst hji
        simp [Function.update_same, hT, hD, Fwd.held, fromInput_single]
      · simp [Function.update_noteq hji, hI.takenEq j hj, fromInput_single, Ne.symm hji]
    · intro j hj hd
      by_cases hji : j = i
      · subst hji; simp
      · rw [Function.update_noteq hji]
        refine hI.dropDone j hj ?_
        simpa [fromInput_single, Ne.symm hji] using hd
    · intro _; exact hc
    · intro j hj hd
      exact Or.inl hc
    · exact hI.tagsLt
    · exact hI.supWait
    · intro hs; exact absurd (hI.supClose hs).1 hwg0
    · intro hs; exact absurd (hI.supDone hs).1 hwg0
    · have hP := inflight_update_perm m.fwd i Fwd.done m.n hi
      rw [hf] at hP
      simp [Fwd.held] at hP
      refine hI.ledger.trans ?_
      have h2 : (m.out ++ inflight m.fwd m.n ++ m.dropped).Perm
          (m.out ++ (inflight (Function.update m.fwd i Fwd.done) m.n ++ [(i, t)]) ++ m.dropped) :=
        List.Perm.append_right _ (List.Perm.append_left _ hP.symm)
      refine h2.trans ?_
      simp only [List.append_assoc]
      refine List.Perm.append_left _ (List.Perm.append_left _ ?_)
      exact List.perm_append_comm
  · simp at h

theorem Merger.Inv.wgWait {m m' : Merger α} (hI : m.Inv)
    (h : m.step .wgWait = some m') : m'.Inv := by
  have hp := hI.noPanic
  simp [Merger.step, hp] at h
  obtain ⟨⟨hs, hw⟩, rfl⟩ := h
  constructor <;> simp only
  · exact hI.wgLive
  · exact hI.acct
  · exact hI.takenEq
  · exact hI.dropDone
  · exact hI.dropCancel
  · exact hI.doneWhy
  · exact hI.tagsLt
  · intro h; cases h
  · intro _; exact ⟨hw, hI.supWait hs⟩
  · intro h; cases h
  · exact hI.ledger

theorem Merger.Inv.closeOut {m m' : Merger α} (hI : m.Inv)
    (h : m.step .closeOut = some m') : m'.Inv := by
  have hp := hI.noPanic
  have := hI.supClose
  simp [Merger.step, hp] at h
  obtain ⟨hs, h⟩ := h
  obtain ⟨hw, ho, hc⟩ := this hs
  simp [ho] at h
  subst h
  constructor <;> simp only
  · exact hI.wgLive
  · exact hI.acct
  · exact hI.takenEq
  · exact hI.dropDone
  · exact hI.dropCancel
  · exact hI.doneWhy
  · exact hI.tagsLt
  · intro h; cases h
  · intro h; cases h
  · intro _; exact ⟨hw, trivial, by omega⟩
  · exact hI.ledger

theorem Merger.Inv.step {m m' : Merger α} (hI : m.Inv) {a : MAct α}
    (h : m.step a = some m') : m'.Inv := by
  cases a with
  | emit i e => exact hI.emit h
  | closeIn i => exact hI.closeIn h
  | cancel => exact hI.cancel h
  | take i => exact hI.take h
  | seeClosed i => exact hI.seeClosed h
  | seeDoneRecv i => exact hI.seeDoneRecv h
  | deliver i => exact hI.deliver h
  | seeDoneSend i => exact hI.seeDoneSend h
  | wgWait => exact hI.wgWait h
  | closeOut => exact hI.closeOut h

theorem Merger.Reach.inv {ctx : Bool} {chans : List (Chan α)} {m : Merger α}
    (h : Merger.Reach (mergeChannels ctx chans) m) : m.Inv := by
  induction h with
  | init => exact Merger.Inv.init ctx chans
  | step a _ hs ih => exact ih.step hs

/-! ## Consequences of the invariant -/

theorem Merger.Reach.after {m₀ m : Merger α} (h : Merger.Reach m₀ m) (acts : List (MAct α)) :
    Merger.Reach m₀ (m.exec acts) := by
  induction acts generalizing m with
  | nil => exact h
  | cons a as ih =>
    simp only [Merger.exec]
    cases hs : m.step a with
    | none => exact ih h
    | some m' => exact ih (Merger.Reach.step a h hs)

theorem fromInput_inflight (fwd : Nat → Fwd α) (i k : Nat) :
    fromInput i (inflight fwd k) = if i < k then (fwd i).held else [] := by
  induction k with
  | zero => simp [inflight]
  | succ k ih =>
    simp only [inflight, fromInput_append, ih]
    have hk : fromInput i ((fwd k).held.map fun t => (k, t)) =
        if k = i then (fwd k).held else [] := by
      by_cases h : k = i
      · subst h; simp [fromInput, List.filter_eq_self.2, Function.comp_def]
      · simp [fromInput, h, List.filter_eq_nil_iff]
    rw [hk]
    by_cases h1 : i < k
    · have : k ≠ i := by omega
      simp [h1, this, Nat.lt_succ_of_lt h1]
    · by_cases h2 : k = i
      · subst h2; simp
      · have : ¬ i < k + 1 := by omega
        simp [h1, h2, this]

theorem held_length_le (f : Fwd α) : f.held.length ≤ 1 := by
  cases f <;> simp [Fwd.held]

theorem allSent_congr (f g : Nat → List α) (k : Nat) (h : ∀ i, i < k → f i = g i) :
    allSent f k = allSent g k := by
  induction k with
  | zero => rfl
  | succ k ih =>
    simp only [allSent]
    rw [ih (fun i hi => h i (by omega)), h k (by omega)]

theorem allSent_cons_perm (e : α) (j : Nat) (l : List (Nat × α)) (k : Nat) (hj : j < k) :
    (allSent (fun i => fromInput i ((j, e) :: l)) k).Perm
      (e :: allSent (fun i => fromInput i l) k) := by
  induction k with
  | zero => omega
  | succ k ih =>
    simp only [allSent]
    by_cases hk : j = k
    · subst hk
      have h1 : allSent (fun i => fromInput i ((j, e) :: l)) j =
          allSent (fun i => fromInput i l) j := by
        apply allSent_congr
        intro i hi
        have : j ≠ i := by omega
        simp [fromInput, List.filter_cons, this]
      rw [h1]
      have h2 : fromInput j ((j, e) :: l) = e :: fromInput j l := by
        simp [fromInput, List.filter_cons]
      rw [h2]
      exact List.perm_middle
    · have h2 : fromInput k ((j, e) :: l) = fromInput k l := by
        simp [fromInput, List.filter_cons, hk]
      rw [h2]
      exact (List.Perm.append_right _ (ih (by omega)))

theorem perm_allSent_fromInput (l : List (Nat × α)) (k : Nat)
    (h : ∀ p, p ∈ l → p.1 < k) :
    (l.map Prod.snd).Perm (allSent (fun i => fromInput i l) k) := by
  induction l with
  | nil =>
    have : ∀ k, allSent (fun _ => ([] : List α)) k = [] := by
      intro k; induction k with
      | zero => rfl
      | succ k ih => simp [allSent, ih]
    simp [this]
  | cons p l ih =>
    obtain ⟨j, e⟩ := p
    have hj : j < k := h (j, e) (List.mem_cons_self _ _)
    have := ih (fun p hp => h p (List.mem_cons_of_mem _ hp))
    simp only [List.map_cons]
    exact (List.Perm.cons e this).trans (allSent_cons_perm e j l k hj).symm

/-- Without cancellation, once every forwarder has returned each input is
closed and drained and the output holds exactly what was sent. -/
theorem Merger.Inv.drained {m : Merger α} (hI : m.Inv) (hc : m.cancelled = false)
    (hd : ∀ i, i < m.n → m.fwd i = Fwd.done) :
    (∀ i, i < m.n → (m.ins i).closed = true ∧ (m.ins i).queue = [] ∧
      fromInput i m.out = m.sent i) ∧
    (m.out.map Prod.snd).Perm (allSent m.sent m.n) := by
  have hdr : m.dropped = [] := by
    by_contra hne
    have := hI.dropCancel hne
    rw [hc] at this; cases this
  have h1 : ∀ i, i < m.n → (m.ins i).closed = true ∧ (m.ins i).queue = [] ∧
      fromInput i m.out = m.sent i := by
    intro i hi
    rcases hI.doneWhy i hi (hd i hi) with h | ⟨h2, h3⟩
    · rw [hc] at h; cases h
    · refine ⟨h2, h3, ?_⟩
      have := hI.acct i hi
      rw [hd i hi, hdr, h3] at this
      simpa [Fwd.held] using this.symm
  refine ⟨h1, ?_⟩
  rw [← allSent_congr (fun i => fromInput i m.out) m.sent m.n (fun i hi => (h1 i hi).2.2)]
  exact perm_allSent_fromInput m.out m.n hI.tagsLt

theorem Merger.Inv.closed_done {m : Merger α} (hI : m.Inv) (ho : m.outClosed = true) :
    ∀ i, i < m.n → m.fwd i = Fwd.done := by
  have hw : m.wg = 0 := by
    cases hs : m.sup
    · have := (hI.supWait hs).1; rw [ho] at this; cases this
    · have := (hI.supClose hs).2.1; rw [ho] at this; cases this
    · exact (hI.supDone hs).1
  have hl : live m.fwd m.n = 0 := by
    have := hI.wgLive; omega
  exact (live_eq_zero m.fwd m.n).1 hl

theorem Merger.dropped_step {m m' : Merger α} {a : MAct α} (h : m.step a = some m')
    (hne : m'.dropped ≠ m.dropped) :
    m.cancelled = true ∧ ∃ i t, a = MAct.seeDoneSend i ∧ m.fwd i = Fwd.send t ∧
      m'.dropped = m.dropped ++ [(i, t)] := by
  cases a with
  | seeDoneSend i =>
    simp only [Merger.step] at h
    split at h
    · cases h
    · split at h
      · rename_i hc
        split at h
        · rename_i t hf
          simp only [Option.some.injEq] at h
          subst h
          exact ⟨hc.2, i, t, rfl, hf, rfl⟩
        · cases h
      · cases h
  | _ =>
    exfalso
    apply hne
    simp only [Merger.step] at h
    repeat' split at h
    all_goals (cases h <;> rfl)

/-- C1. No loss and no duplication in `mergeChannels`. For every list of
input channels and every execution, in every reachable state: (1) the tickets
taken from the inputs are, as a multiset, the tickets handed to the output
plus the tickets held in flight plus the tickets abandoned; (2) each
forwarder holds at most one ticket in flight; (3) while cancellation has not
fired nothing has been abandoned, so what was taken is what was delivered
plus what is in flight; (4) without cancellation, once the output is closed
(or every forwarder has returned) every input is closed and drained, the
tickets delivered from input `i` are exactly the tickets sent on it, and the
delivered tickets are the multiset union of the tickets sent on the inputs;
(5) a step abandons a ticket only if it is the `ctx.Done()` case of the inner
`select` and the context is cancelled; (6) the tickets taken from input `i`
followed by the tickets still pending on it are the tickets sent on it. -/
theorem mergeChannels_no_loss_no_duplication (ctx : Bool) (chans : List (Chan α))
    (m : Merger α) (h : Merger.Reach (mergeChannels ctx chans) m) :
    m.taken.Perm (m.out ++ inflight m.fwd m.n ++ m.dropped) ∧
    (∀ i, fromInput i (inflight m.fwd m.n) = (if i < m.n then (m.fwd i).held else []) ∧
      (fromInput i (inflight m.fwd m.n)).length ≤ 1) ∧
    (m.cancelled = false → m.dropped = [] ∧ m.taken.Perm (m.out ++ inflight m.fwd m.n)) ∧
    (m.cancelled = false →
      (m.outClosed = true ∨ ∀ i, i < m.n → m.fwd i = Fwd.done) →
      (∀ i, i < m.n → (m.ins i).closed = true ∧ (m.ins i).queue = [] ∧
        fromInput i m.out = m.sent i) ∧
      (m.out.map Prod.snd).Perm (allSent m.sent m.n)) ∧
    (∀ a m', m.step a = some m' → m'.dropped ≠ m.dropped →
      m.cancelled = true ∧ ∃ i t, a = MAct.seeDoneSend i ∧ m.fwd i = Fwd.send t ∧
        m'.dropped = m.dropped ++ [(i, t)]) ∧
    (∀ i, i < m.n → m.sent i = fromInput i m.taken ++ (m.ins i).queue) := by
  have hI := h.inv
  refine ⟨hI.ledger, ?_, ?_, ?_, ?_, ?_⟩
  · intro i
    rw [fromInput_inflight]
    refine ⟨rfl, ?_⟩
    split
    · exact held_length_le _
    · simp
  · intro hc
    have hdr : m.dropped = [] := by
      by_contra hne
      have := hI.dropCancel hne
      rw [hc] at this; cases this
    refine ⟨hdr, ?_⟩
    have := hI.ledger
    rw [hdr, List.append_nil] at this
    exact this
  · intro hc hfin
    apply hI.drained hc
    rcases hfin with ho | hd
    · exact hI.closed_done ho
    · exact hd
  · intro a m' hs hne
    exact Merger.dropped_step hs hne
  · intro i hi
    rw [hI.takenEq i hi, hI.acct i hi]

theorem fromInput_of_tags_lt (l : List (Nat × α)) (k i : Nat) (h : ∀ p, p ∈ l → p.1 < k)
    (hi : k ≤ i) : fromInput i l = [] := by
  simp only [fromInput, List.map_eq_nil_iff, List.filter_eq_nil_iff]
  intro p hp
  have := h p hp
  simp
  omega

/-- C2. Per-source order is preserved by `mergeChannels`. In every reachable
state and for every input `i`, the tickets of the output that came from
input `i`, in output order, are a prefix of the sequence of tickets sent on
input `i`; what follows that prefix is the ticket in flight, the abandoned
ticket and the tickets still pending, in that order. -/
theorem mergeChannels_per_source_order (ctx : Bool) (chans : List (Chan α))
    (m : Merger α) (h : Merger.Reach (mergeChannels ctx chans) m) (i : Nat) :
    fromInput i m.out <+: m.sent i ∧
    (i < m.n → m.sent i =
      fromInput i m.out ++ ((m.fwd i).held ++ fromInput i m.dropped ++ (m.ins i).queue)) := by
  have hI := h.inv
  by_cases hi : i < m.n
  · have := hI.acct i hi
    refine ⟨⟨(m.fwd i).held ++ fromInput i m.dropped ++ (m.ins i).queue, ?_⟩, fun _ => ?_⟩
    · rw [this]; simp
    · rw [this]; simp
  · refine ⟨?_, fun h => absurd h hi⟩
    rw [fromInput_of_tags_lt m.out m.n i hI.tagsLt (by omega)]
    exact List.nil_prefix

theorem work_update (ins : Nat → Chan α) (fwd : Nat → Fwd α) (i : Nat) (c : Chan α)
    (f : Fwd α) (k : Nat) (hi : i < k) :
    work (Function.update ins i c) (Function.update fwd i f) k +
        (2 * (ins i).queue.length + (fwd i).weight) =
      work ins fwd k + (2 * c.queue.length + f.weight) := by
  induction k with
  | zero => omega
  | succ k ih =>
    simp only [work]
    by_cases hk : k = i
    · subst hk
      have hge : ∀ j, j ≤ k →
          work (Function.update ins k c) (Function.update fwd k f) j = work ins fwd j := by
        intro j hj
        induction j with
        | zero => rfl
        | succ j ihj =>
          simp only [work]
          have : j ≠ k := by omega
          rw [Function.update_noteq this, Function.update_noteq this, ihj (by omega)]
      rw [hge k (le_refl _), Function.update_same, Function.update_same]
      omega
    · rw [Function.update_noteq hk, Function.update_noteq hk]
      have := ih (by omega)
      omega

theorem work_update_fwd (ins : Nat → Chan α) (fwd : Nat → Fwd α) (i : Nat)
    (f : Fwd α) (k : Nat) (hi : i < k) :
    work ins (Function.update fwd i f) k + (fwd i).weight = work ins fwd k + f.weight := by
  have := work_update ins fwd i (ins i) f k hi
  rw [Function.update_eq_self] at this
  omega

/-- Every step of a goroutine of the merger uses up fuel. -/
theorem Merger.Inv.fuel_step {m m' : Merger α} (hI : m.Inv) {a : MAct α}
    (ha : a.isEnv = false) (h : m.step a = some m') : m'.fuel < m.fuel := by
  cases a with
  | emit i e => simp [MAct.isEnv] at ha
  | closeIn i => simp [MAct.isEnv] at ha
  | cancel => simp [MAct.isEnv] at ha
  | take i =>
    simp only [Merger.step] at h
    split at h
    · cases h
    split at h
    · rename_i hi
      split at h
      · rename_i e q hf hq
        cases h
        have := work_update m.ins m.fwd i ⟨q, (m.ins i).closed⟩ (Fwd.send e) m.n hi
        simp only [Merger.fuel]
        rw [hf, hq] at this
        simp only [Fwd.weight, List.length_cons] at this
        omega
      · cases h
    · cases h
  | seeClosed i =>
    simp only [Merger.step] at h
    split at h
    · cases h
    split at h
    · rename_i hi
      split at h
      · rename_i hf hq hc
        cases h
        have := work_update_fwd m.ins m.fwd i Fwd.done m.n hi
        simp only [Merger.fuel, Merger.ret]
        rw [hf] at this
        simp only [Fwd.weight] at this
        omega
      · cases h
    · cases h
  | seeDoneRecv i =>
    simp only [Merger.step] at h
    split at h
    · cases h
    split at h
    · rename_i hi
      split at h
      · rename_i hf
        cases h
        have := work_update_fwd m.ins m.fwd i Fwd.done m.n hi.1
        simp only [Merger.fuel, Merger.ret]
        rw [hf] at this
        simp only [Fwd.weight] at this
        omega
      · cases h
    · cases h
  | deliver i =>
    simp only [Merger.step] at h
    split at h
    · cases h
    split at h
    · rename_i hi
      split at h
      · rename_i t hf
        split at h
        · rename_i ho
          have hne : m.fwd i ≠ Fwd.done := by rw [hf]; intro h; cases h
          rw [hI.out_open hi hne] at ho
          cases ho
        · cases h
          have := work_update_fwd m.ins m.fwd i Fwd.recv m.n hi
          simp only [Merger.fuel]
          rw [hf] at this
          simp only [Fwd.weight] at this
          omega
      · cases h
    · cases h
  | seeDoneSend i =>
    simp only [Merger.step] at h
    split at h
    · cases h
    split at h
    · rename_i hi
      split at h
      · rename_i t hf
        cases h
        have := work_update_fwd m.ins m.fwd i Fwd.done m.n hi.1
        simp only [Merger.fuel, Merger.ret]
        rw [hf] at this
        simp only [Fwd.weight] at this
        omega
      · cases h
    · cases h
  | wgWait =>
    simp only [Merger.step] at h
    split at h
    · cases h
    split at h
    · rename_i hs
      cases h
      simp only [Merger.fuel, hs.1, Sup.weight]
      omega
    · cases h
  | closeOut =>
    simp only [Merger.step] at h
    split at h
    · cases h
    split at h
    · rename_i hs
      split at h <;> cases h <;> simp only [Merger.fuel, hs, Sup.weight] <;> omega
    · cases h

/-- No step reopens a channel, resets the context or changes the number of
inputs. -/
theorem Merger.step_mono {m m' : Merger α} {a : MAct α} (h : m.step a = some m') :
    m'.n = m.n ∧ (m.cancelled = true → m'.cancelled = true) ∧
    (∀ i, (m.ins i).closed = true → (m'.ins i).closed = true) ∧
    (m.outClosed = true → m'.outClosed = true) := by
  have key : ∀ (i : Nat) (c : Chan α), c.closed = (m.ins i).closed ∨ c.closed = true →
      ∀ j, (m.ins j).closed = true → (Function.update m.ins i c j).closed = true := by
    intro i c hc j hj
    by_cases hji : j = i
    · subst hji
      rw [Function.update_same]
      rcases hc with hc | hc
      · rw [hc]; exact hj
      · exact hc
    · rw [Function.update_noteq hji]; exact hj
  cases a <;> simp only [Merger.step] at h <;> repeat' split at h
  all_goals first
    | (cases h; done)
    | (cases h; refine ⟨rfl, fun hc => ?_, fun j hj => ?_, fun ho => ?_⟩ <;>
        first
          | assumption
          | rfl
          | exact key _ _ (Or.inl rfl) j hj
          | exact key _ _ (Or.inr rfl) j hj
          | exact key _ _ (Or.inl (by simp_all)) j hj)

theorem Merger.Inv.progress {m : Merger α} (hI : m.Inv)
    (hc : m.cancelled = true ∨ ∀ i, i < m.n → (m.ins i).closed = true)
    (ho : m.outClosed = false) :
    ∃ a m', a.isEnv = false ∧ m.step a = some m' := by
  have hp := hI.noPanic
  suffices hs : ∃ a : MAct α, a.isEnv = false ∧ (m.step a).isSome = true by
    obtain ⟨a, ha, hs⟩ := hs
    obtain ⟨m', hm⟩ := Option.isSome_iff_exists.1 hs
    exact ⟨a, m', ha, hm⟩
  cases hs : m.sup with
  | done =>
    have := (hI.supDone hs).2.1
    rw [ho] at this; cases this
  | close =>
    exact ⟨.closeOut, rfl, by simp [Merger.step, hp, hs, ho]⟩
  | wait =>
    by_cases hw : m.wg = 0
    · exact ⟨.wgWait, rfl, by simp [Merger.step, hp, hs, hw]⟩
    · have hl : ¬ live m.fwd m.n = 0 := by
        have := hI.wgLive; omega
      rw [live_eq_zero] at hl
      push_neg at hl
      obtain ⟨i, hi, hf⟩ := hl
      cases hfi : m.fwd i with
      | done => exact absurd hfi hf
      | send t =>
        exact ⟨.deliver i, rfl, by simp [Merger.step, hp, hi, hfi, ho]⟩
      | recv =>
        by_cases hcan : m.cancelled = true
        · exact ⟨.seeDoneRecv i, rfl, by simp [Merger.step, hp, hi, hfi, hcan]⟩
        · have hcl : (m.ins i).closed = true := by
            rcases hc with h | h
            · exact absurd h hcan
            · exact h i hi
          cases hq : (m.ins i).queue with
          | nil =>
            exact ⟨.seeClosed i, rfl, by simp [Merger.step, hp, hi, hfi, hq, hcl]⟩
          | cons e q =>
            exact ⟨.take i, rfl, by simp [Merger.step, hp, hi, hfi, hq]⟩

theorem Merger.Inv.run {m m' : Merger α} (hI : m.Inv) {acts : List (MAct α)}
    (h : m.run acts = some m') : m'.Inv := by
  induction acts generalizing m with
  | nil => simp [Merger.run] at h; subst h; exact hI
  | cons a as ih =>
    simp only [Merger.run] at h
    cases hs : m.step a with
    | none => simp [hs] at h
    | some m₁ =>
      simp [hs] at h
      exact ih (hI.step hs) h

theorem Merger.closing_step {m m' : Merger α} {a : MAct α} (hs : m.step a = some m')
    (hc : m.cancelled = true ∨ ∀ i, i < m.n → (m.ins i).closed = true) :
    m'.cancelled = true ∨ ∀ i, i < m'.n → (m'.ins i).closed = true := by
  obtain ⟨hn, h1, h2, _⟩ := Merger.step_mono hs
  rcases hc with hc | hc
  · exact Or.inl (h1 hc)
  · right
    intro i hi
    rw [hn] at hi
    exact h2 i (hc i hi)

theorem Merger.closing_run {m m' : Merger α} {acts : List (MAct α)}
    (h : m.run acts = some m')
    (hc : m.cancelled = true ∨ ∀ i, i < m.n → (m.ins i).closed = true) :
    m'.cancelled = true ∨ ∀ i, i < m'.n → (m'.ins i).closed = true := by
  induction acts generalizing m with
  | nil => simp [Merger.run] at h; subst h; exact hc
  | cons a as ih =>
    simp only [Merger.run] at h
    cases hs : m.step a with
    | none => simp [hs] at h
    | some m₁ =>
      simp [hs] at h
      exact ih h (Merger.closing_step hs hc)

theorem Merger.Inv.run_bound {m m' : Merger α} (hI : m.Inv) {acts : List (MAct α)}
    (ha : ∀ a, a ∈ acts → a.isEnv = false) (h : m.run acts = some m') :
    m'.fuel + acts.length ≤ m.fuel := by
  induction acts generalizing m with
  | nil => simp [Merger.run] at h; subst h; simp
  | cons a as ih =>
    simp only [Merger.run] at h
    cases hs : m.step a with
    | none => simp [hs] at h
    | some m₁ =>
      simp [hs] at h
      have h1 := hI.fuel_step (ha a (List.mem_cons_self _ _)) hs
      have h2 := ih (hI.step hs) (fun b hb => ha b (List.mem_cons_of_mem _ hb)) h
      simp only [List.length_cons]
      omega

theorem Merger.Inv.can_close {m : Merger α} (hI : m.Inv)
    (hc : m.cancelled = true ∨ ∀ i, i < m.n → (m.ins i).closed = true) :
    ∃ acts m', (∀ a, a ∈ acts → a.isEnv = false) ∧ m.run acts = some m' ∧
      m'.outClosed = true := by
  generalize hk : m.fuel = k
  induction k using Nat.strong_induction_on generalizing m with
  | _ k ih =>
    cases ho : m.outClosed with
    | true => exact ⟨[], m, by simp, rfl, ho⟩
    | false =>
      obtain ⟨a, m₁, ha, hs⟩ := hI.progress hc ho
      have hlt := hI.fuel_step ha hs
      have hc₁ : m₁.cancelled = true ∨ ∀ i, i < m₁.n → (m₁.ins i).closed = true :=
        Merger.closing_step hs hc
      obtain ⟨acts, m₂, h1, h2, h3⟩ := ih m₁.fuel (by omega) (hI.step hs) hc₁ rfl
      refine ⟨a :: acts, m₂, ?_, ?_, h3⟩
      · intro b hb
        rcases List.mem_cons.1 hb with hb | hb
        · rw [hb]; exact ha
        · exact h1 b hb
      · simp [Merger.run, hs, h2]

theorem eq_nil_of_fromInput (l : List (Nat × α)) (k : Nat) (h : ∀ p, p ∈ l → p.1 < k)
    (he : ∀ i, i < k → fromInput i l = []) : l = [] := by
  cases l with
  | nil => rfl
  | cons p l =>
    have := he p.1 (h p (List.mem_cons_self _ _))
    simp [fromInput, List.filter_cons] at this

/-- A forwarder returns only through one of its three `return` statements,
each guarded by what it has just observed. -/
theorem Merger.ret_step {m m' : Merger α} {a : MAct α} (h : m.step a = some m') (i : Nat)
    (h0 : m.fwd i ≠ Fwd.done) (h1 : m'.fwd i = Fwd.done) :
    (a = MAct.seeClosed i ∧ (m.ins i).closed = true ∧ (m.ins i).queue = []) ∨
    ((a = MAct.seeDoneRecv i ∨ a = MAct.seeDoneSend i) ∧ m.cancelled = true) := by
  have key : ∀ (j : Nat) (v : Fwd α), Function.update m.fwd j v i = Fwd.done →
      j = i ∧ v = Fwd.done := by
    intro j v hv
    by_cases hji : i = j
    · subst hji
      rw [Function.update_same] at hv
      exact ⟨rfl, hv⟩
    · rw [Function.update_noteq hji] at hv
      exact absurd hv h0
  cases a <;> simp only [Merger.step] at h <;> repeat' split at h
  all_goals first
    | (cases h; done)
    | (cases h; exact absurd h1 h0)
    | (cases h; have := (key _ _ h1).2; cases this)
  · obtain ⟨rfl, _⟩ := key _ _ h1
    exact Or.inl ⟨rfl, by assumption, by assumption⟩
  · obtain ⟨hji, _⟩ := key _ _ h1
    subst hji
    exact Or.inr ⟨Or.inl rfl, by tauto⟩
  · obtain ⟨hji, _⟩ := key _ _ h1
    subst hji
    exact Or.inr ⟨Or.inr rfl, by tauto⟩

/-- C3. Closure property of `mergeChannels`. In every reachable state:
(1) if the output is closed then every forwarder has returned, and
cancellation has fired or every input is closed and drained; (2) a forwarder
returns only by the step that observes its own input closed and empty or by
a step that observes `ctx.Done()`; (3) the output is not closed while some
input is open with a pending ticket and cancellation has not fired; (4) once
cancellation has fired or every input has closed, the goroutines of the
merger (with a consumer that keeps receiving) can close the output, every
execution of theirs has at most `fuel` steps, and when none of them can step
any more the output is closed; (5) a closed output stays closed; (6) when
nothing was sent on any input (in particular with no input at all) nothing
is delivered. -/
theorem mergeChannels_closure (ctx : Bool) (chans : List (Chan α))
    (m : Merger α) (h : Merger.Reach (mergeChannels ctx chans) m) :
    (m.outClosed = true →
      (∀ i, i < m.n → m.fwd i = Fwd.done) ∧
      (m.cancelled = true ∨
        ∀ i, i < m.n → (m.ins i).closed = true ∧ (m.ins i).queue = [])) ∧
    (∀ a m' i, m.step a = some m' → m.fwd i ≠ Fwd.done → m'.fwd i = Fwd.done →
      (a = MAct.seeClosed i ∧ (m.ins i).closed = true ∧ (m.ins i).queue = []) ∨
      ((a = MAct.seeDoneRecv i ∨ a = MAct.seeDoneSend i) ∧ m.cancelled = true)) ∧
    (m.outClosed = true →
      ¬ ∃ i, i < m.n ∧ (m.ins i).closed = false ∧ (m.ins i).queue ≠ [] ∧
        m.cancelled = false) ∧
    ((m.cancelled = true ∨ ∀ i, i < m.n → (m.ins i).closed = true) →
      (∃ acts m', (∀ a, a ∈ acts → a.isEnv = false) ∧ m.run acts = some m' ∧
        m'.outClosed = true) ∧
      (∀ acts m', (∀ a, a ∈ acts → a.isEnv = false) → m.run acts = some m' →
        acts.length ≤ m.fuel ∧
        ((∀ a, a.isEnv = false → m'.step a = none) → m'.outClosed = true))) ∧
    (∀ a m', m.step a = some m' → m.outClosed = true → m'.outClosed = true) ∧
    ((∀ i, i < m.n → m.sent i = []) → m.out = []) := by
  have hI := h.inv
  have hdone : m.outClosed = true →
      (∀ i, i < m.n → m.fwd i = Fwd.done) ∧
      (m.cancelled = true ∨
        ∀ i, i < m.n → (m.ins i).closed = true ∧ (m.ins i).queue = []) := by
    intro ho
    have hd := hI.closed_done ho
    refine ⟨hd, ?_⟩
    cases hc : m.cancelled with
    | true => exact Or.inl rfl
    | false =>
      right
      intro i hi
      rcases hI.doneWhy i hi (hd i hi) with h | h
      · rw [hc] at h; cases h
      · exact h
  refine ⟨hdone, ?_, ?_, ?_, ?_, ?_⟩
  · intro a m' i hs h0 h1
    exact Merger.ret_step hs i h0 h1
  · rintro ho ⟨i, hi, hcl, hq, hc⟩
    rcases (hdone ho).2 with h | h
    · rw [hc] at h; cases h
    · exact hq (h i hi).2
  · intro hc
    refine ⟨hI.can_close hc, ?_⟩
    intro acts m' ha hr
    have hb := hI.run_bound ha hr
    refine ⟨by omega, ?_⟩
    intro hstuck
    cases ho : m'.outClosed with
    | true => rfl
    | false =>
      obtain ⟨a, m₂, ha₂, hs₂⟩ := (hI.run hr).progress (Merger.closing_run hr hc) ho
      rw [hstuck a ha₂] at hs₂
      cases hs₂
  · intro a m' hs ho
    exact (Merger.step_mono hs).2.2.2 ho
  · intro hs
    apply eq_nil_of_fromInput m.out m.n hI.tagsLt
    intro i hi
    have := hI.acct i hi
    rw [hs i hi] at this
    have := congrArg List.length this
    simp only [List.length_nil, List.length_append] at this
    exact List.eq_nil_of_length_eq_zero (by omega)

/-- C10. Channel safety of `mergeChannels`. For every list of inputs (the
empty one included) and in every reachable state: no runtime panic has
happened; `close(out)` has run at most once, and exactly once when the
output is closed; when the output is closed every forwarder has returned;
`close(out)` runs only in a state where every forwarder has returned and the
output is still open; a delivery happens only while the output is open; no
step leads to a panic; and once the output is closed neither `close(out)`
nor a send on `out` is enabled any more. -/
theorem mergeChannels_channel_safety (ctx : Bool) (chans : List (Chan α))
    (m : Merger α) (h : Merger.Reach (mergeChannels ctx chans) m) :
    m.panicked = false ∧
    m.closes ≤ 1 ∧
    (m.outClosed = true ↔ m.closes = 1) ∧
    (m.outClosed = true → ∀ i, i < m.n → m.fwd i = Fwd.done) ∧
    (∀ m', m.step MAct.closeOut = some m' →
      (∀ i, i < m.n → m.fwd i = Fwd.done) ∧ m.outClosed = false ∧ m.closes = 0 ∧
      m'.outClosed = true ∧ m'.closes = 1) ∧
    (∀ i m', m.step (MAct.deliver i) = some m' → m.outClosed = false) ∧
    (∀ a m', m.step a = some m' → m'.panicked = false) ∧
    (m.outClosed = true →
      m.step MAct.closeOut = none ∧ ∀ i, m.step (MAct.deliver i) = none) := by
  have hI := h.inv
  have hp := hI.noPanic
  have hcl : m.outClosed = true → m.sup = Sup.done := by
    intro ho
    cases hs : m.sup
    · have := (hI.supWait hs).1; rw [ho] at this; cases this
    · have := (hI.supClose hs).2.1; rw [ho] at this; cases this
    · rfl
  refine ⟨hp, ?_, ?_, hI.closed_done, ?_, ?_, ?_, ?_⟩
  · cases hs : m.sup
    · have := (hI.supWait hs).2; omega
    · have := (hI.supClose hs).2.2; omega
    · have := (hI.supDone hs).2.2; omega
  · constructor
    · intro ho; exact (hI.supDone (hcl ho)).2.2
    · intro hc
      cases hs : m.sup
      · have := (hI.supWait hs).2; omega
      · have := (hI.supClose hs).2.2; omega
      · exact (hI.supDone hs).2.1
  · intro m' hs
    have hI' := hI.step hs
    simp [Merger.step, hp] at hs
    obtain ⟨hsup, hm⟩ := hs
    obtain ⟨hw, ho, hc⟩ := hI.supClose hsup
    have hl : live m.fwd m.n = 0 := by
      have := hI.wgLive; omega
    simp [ho] at hm
    subst hm
    exact ⟨(live_eq_zero m.fwd m.n).1 hl, ho, hc, rfl, by simp [hc]⟩
  · intro i m' hs
    simp [Merger.step, hp] at hs
    obtain ⟨hi, hs⟩ := hs
    split at hs
    · rename_i t hf
      exact hI.out_open hi (by rw [hf]; intro h; cases h)
    · cases hs
  · intro a m' hs
    exact (hI.step hs).noPanic
  · intro ho
    have hsd := hcl ho
    have hd := hI.closed_done ho
    refine ⟨by simp [Merger.step, hp, hsd], ?_⟩
    intro i
    by_cases hi : i < m.n
    · simp [Merger.step, hp, hi, hd i hi]
    · simp [Merger.step, hp, hi]

end MergerProofs

/-! ## The dispatch loops -/

section DispatchProofs

variable {α β π σ : Type}

theorem runs_exited (iter : Loop α σ → Sel α → Loop α σ) (l : Loop α σ)
    (h : l.exited = true) (os : List (Sel α)) : Loop.runs iter l os = l := by
  cases os <;> simp [Loop.runs, h]

theorem syncTickets_runs (addTicket : π → α → π × Bool) (l : Loop α π)
    (h : l.exited = false) (os : List (Sel α)) :
    (Loop.runs (syncTicketsIter addTicket) l os).applied =
      l.applied ++ received (os.takeWhile fun o => !o.terminal) := by
  induction os generalizing l with
  | nil => simp [Loop.runs, received]
  | cons o os ih =>
    simp only [Loop.runs, h, Bool.false_eq_true, ↓reduceIte]
    cases o with
    | recv e =>
      rw [ih _ (by simp [syncTicketsIter, h])]
      simp [syncTicketsIter, Sel.terminal, received]
    | closed =>
      rw [runs_exited _ _ (by simp [syncTicketsIter])]
      simp [syncTicketsIter, Sel.terminal, received]
    | done =>
      rw [runs_exited _ _ (by simp [syncTicketsIter])]
      simp [syncTicketsIter, Sel.terminal, received]
    | dflt =>
      rw [ih _ (by simp [syncTicketsIter, h])]
      simp [syncTicketsIter, Sel.terminal, received]

theorem syncAccountCreated_runs (addNewMapping : σ → β → σ × Bool) (l : Loop β σ)
    (h : l.exited = false) (os : List (Sel β)) :
    (Loop.runs (syncAccountCreatedIter addNewMapping) l os).applied =
      l.applied ++ received (os.takeWhile fun o => !o.terminal) := by
  induction os generalizing l with
  | nil => simp [Loop.runs, received]
  | cons o os ih =>
    simp only [Loop.runs, h, Bool.false_eq_true, ↓reduceIte]
    cases o with
    | recv e =>
      rw [ih _ (by simp [syncAccountCreatedIter, h])]
      simp [syncAccountCreatedIter, Sel.terminal, received]
    | closed =>
      rw [runs_exited _ _ (by simp [syncAccountCreatedIter])]
      simp [syncAccountCreatedIter, Sel.terminal, received]
    | done =>
      rw [runs_exited _ _ (by simp [syncAccountCreatedIter])]
      simp [syncAccountCreatedIter, Sel.terminal, received]
    | dflt =>
      rw [ih _ (by simp [syncAccountCreatedIter, h])]
      simp [syncAccountCreatedIter, Sel.terminal, received]

theorem syncTickets_recvs (addTicket : π → α → π × Bool) (l : Loop α π)
    (h : l.exited = false) (es : List α) :
    (Loop.runs (syncTicketsIter addTicket) l (es.map Sel.recv)).applied = l.applied ++ es ∧
    (Loop.runs (syncTicketsIter addTicket) l (es.map Sel.recv)).store =
      es.foldl (fun p e => (addTicket p e).1) l.store ∧
    (Loop.runs (syncTicketsIter addTicket) l (es.map Sel.recv)).exited = false := by
  induction es generalizing l with
  | nil => simp [Loop.runs, h]
  | cons e es ih =>
    simp only [List.map_cons, Loop.runs, h, Bool.false_eq_true, ↓reduceIte, List.foldl_cons]
    obtain ⟨h1, h2, h3⟩ := ih (syncTicketsIter addTicket l (.recv e)) (by simp [syncTicketsIter, h])
    rw [h1, h2, h3]
    simp [syncTicketsIter]

theorem syncAccountCreated_recvs (addNewMapping : σ → β → σ × Bool) (l : Loop β σ)
    (h : l.exited = false) (es : List β) :
    (Loop.runs (syncAccountCreatedIter addNewMapping) l (es.map Sel.recv)).applied =
      l.applied ++ es ∧
    (Loop.runs (syncAccountCreatedIter addNewMapping) l (es.map Sel.recv)).store =
      es.foldl (fun p e => (addNewMapping p e).1) l.store ∧
    (Loop.runs (syncAccountCreatedIter addNewMapping) l (es.map Sel.recv)).exited = false := by
  induction es generalizing l with
  | nil => simp [Loop.runs, h]
  | cons e es ih =>
    simp only [List.map_cons, Loop.runs, h, Bool.false_eq_true, ↓reduceIte, List.foldl_cons]
    obtain ⟨h1, h2, h3⟩ :=
      ih (syncAccountCreatedIter addNewMapping l (.recv e)) (by simp [syncAccountCreatedIter, h])
    rw [h1, h2, h3]
    simp [syncAccountCreatedIter]

/-- C4. Apply failure isolation in the dispatch loops. For every apply
function and every sequence of events received without cancellation, the
loop of `syncTickets` and the loop of `syncAccountCreated` call apply on
every event exactly once and in the received order, thread the store through
the calls, and are still running afterwards, whatever apply returns. More
generally, for any sequence of `select` outcomes the events applied are the
events received before the first outcome that ends the loop. Example: when
`AddNewMapping` fails on the second of four events, all four are applied in
order and the failure shows only as one logged warning. -/
theorem dispatch_apply_failure_isolation
    (addTicket : π → α → π × Bool) (addNewMapping : σ → β → σ × Bool)
    (pool : π) (state : σ) :
    (∀ es : List α,
      (Loop.runs (syncTicketsIter addTicket) (Loop.new pool) (es.map Sel.recv)).applied = es ∧
      (Loop.runs (syncTicketsIter addTicket) (Loop.new pool) (es.map Sel.recv)).store =
        es.foldl (fun p e => (addTicket p e).1) pool ∧
      (Loop.runs (syncTicketsIter addTicket) (Loop.new pool) (es.map Sel.recv)).exited = false) ∧
    (∀ es : List β,
      (Loop.runs (syncAccountCreatedIter addNewMapping) (Loop.new state)
        (es.map Sel.recv)).applied = es ∧
      (Loop.runs (syncAccountCreatedIter addNewMapping) (Loop.new state)
        (es.map Sel.recv)).store = es.foldl (fun p e => (addNewMapping p e).1) state ∧
      (Loop.runs (syncAccountCreatedIter addNewMapping) (Loop.new state)
        (es.map Sel.recv)).exited = false) ∧
    (∀ os : List (Sel α),
      (Loop.runs (syncTicketsIter addTicket) (Loop.new pool) os).applied =
        received (os.takeWhile fun o => !o.terminal)) ∧
    (∀ os : List (Sel β),
      (Loop.runs (syncAccountCreatedIter addNewMapping) (Loop.new state) os).applied =
        received (os.takeWhile fun o => !o.terminal)) ∧
    (Loop.runs (syncAccountCreatedIter demoDeps.addNewMapping) (Loop.new [])
        ([1, 2, 3, 4].map Sel.recv)).applied = [1, 2, 3, 4] ∧
    (Loop.runs (syncAccountCreatedIter demoDeps.addNewMapping) (Loop.new [])
        ([1, 2, 3, 4].map Sel.recv)).log =
      [Msg.newMapping, Msg.newMapping, Msg.addMappingError, Msg.newMapping, Msg.newMapping] := by
  refine ⟨fun es => ?_, fun es => ?_, fun os => ?_, fun os => ?_, by decide, by decide⟩
  · simpa [Loop.new] using syncTickets_recvs addTicket (Loop.new pool) rfl es
  · simpa [Loop.new] using syncAccountCreated_recvs addNewMapping (Loop.new state) rfl es
  · simpa [Loop.new] using syncTickets_runs addTicket (Loop.new pool) rfl os
  · simpa [Loop.new] using syncAccountCreated_runs addNewMapping (Loop.new state) rfl os

theorem runs_spin_tickets (addTicket : π → α → π × Bool) (l : Loop α π)
    (h : l.exited = false) (k : Nat) :
    Loop.runs (syncTicketsIter addTicket) l (List.replicate k Sel.dflt) =
      { l with spins := l.spins + k } := by
  induction k generalizing l with
  | zero => simp [Loop.runs]
  | succ k ih =>
    simp only [List.replicate_succ, Loop.runs, h, Bool.false_eq_true, ↓reduceIte]
    rw [ih _ (by simp [syncTicketsIter, h])]
    simp [syncTicketsIter]
    exact ⟨h, by omega⟩

theorem runs_spin_accounts (addNewMapping : σ → β → σ × Bool) (l : Loop β σ)
    (h : l.exited = false) (k : Nat) :
    Loop.runs (syncAccountCreatedIter addNewMapping) l (List.replicate k Sel.dflt) =
      { l with spins := l.spins + k } := by
  induction k generalizing l with
  | zero => simp [Loop.runs]
  | succ k ih =>
    simp only [List.replicate_succ, Loop.runs, h, Bool.false_eq_true, ↓reduceIte]
    rw [ih _ (by simp [syncAccountCreatedIter, h])]
    simp [syncAccountCreatedIter]
    exact ⟨h, by omega⟩

/-- C8, the code at the failing input. With the input open and empty and
the context active, the `select` of both dispatch loops runs its `default`
case: the iteration completes with nothing received, and so do `k`
iterations in a row for every `k`; in the running system the loops of both
pipelines spin in the same way. A forwarder of `mergeChannels` in the same
situation has no outcome available: it blocks. -/
theorem dispatch_loops_busy_poll [DecidableEq α] [DecidableEq β]
    (addTicket : π → α → π × Bool) (addNewMapping : σ → β → σ × Bool)
    (pool : π) (state : σ) (k : Nat) :
    dispatch (syncTicketsIter addTicket) false Chan.fresh (Loop.new pool) Sel.dflt =
      some (Chan.fresh, { Loop.new pool with spins := 1 }) ∧
    dispatch (syncAccountCreatedIter addNewMapping) false Chan.fresh (Loop.new state) Sel.dflt =
      some (Chan.fresh, { Loop.new state with spins := 1 }) ∧
    Loop.runs (syncTicketsIter addTicket) (Loop.new pool) (List.replicate k Sel.dflt) =
      { Loop.new pool with spins := k } ∧
    Loop.runs (syncAccountCreatedIter addNewMapping) (Loop.new state)
        (List.replicate k Sel.dflt) = { Loop.new state with spins := k } ∧
    (∀ o : Sel α, Sel.readyBlocking (Chan.fresh : Chan α) false o = false) ∧
    (demoSync.exec demoDeps [.start, .aSpin, .tSpin, .aSpin, .aSpin]).aloop.spins = 3 ∧
    (demoSync.exec demoDeps [.start, .aSpin, .tSpin, .aSpin, .aSpin]).tloop.spins = 1 ∧
    (demoSync.exec demoDeps [.start, .aSpin, .tSpin, .aSpin, .aSpin]).aloop.applied = [] ∧
    (demoSync.exec demoDeps [.start, .aSpin, .tSpin, .aSpin, .aSpin]).cancelled = false ∧
    ((demoSync.exec demoDeps [.start]).m.step (MAct.take 0)).isNone = true ∧
    ((demoSync.exec demoDeps [.start]).m.step (MAct.seeClosed 0)).isNone = true ∧
    ((demoSync.exec demoDeps [.start]).m.step (MAct.seeDoneRecv 0)).isNone = true := by
  refine ⟨?_, ?_, ?_, ?_, ?_, by decide, by decide, by decide, by decide, by decide,
    by decide, by decide⟩
  · simp [dispatch, Sel.ready, Chan.fresh, Loop.new, syncTicketsIter]
  · simp [dispatch, Sel.ready, Chan.fresh, Loop.new, syncAccountCreatedIter]
  · simpa [Loop.new] using runs_spin_tickets addTicket (Loop.new pool) rfl k
  · simpa [Loop.new] using runs_spin_accounts addNewMapping (Loop.new state) rfl k
  · intro o
    cases o <;> simp [Sel.readyBlocking, Sel.ready, Chan.fresh]

end DispatchProofs

/-! ## The Synchronizer -/

section SyncProofs

variable {α β π σ : Type}

theorem Synchronizer.Reach.afterSync {d : Deps α β π σ} {s₀ s : Synchronizer α β π σ} (h : Synchronizer.Reach d s₀ s)
    (acts : List (Act α β)) : Synchronizer.Reach d s₀ (s.exec d acts) := by
  induction acts generalizing s with
  | nil => exact h
  | cons a as ih =>
    simp only [Synchronizer.exec]
    cases hs : s.step d a with
    | none => exact ih h
    | some s' => exact ih (Synchronizer.Reach.step a h hs)

/-- Only the environment action `cancel` changes the context of a merger. -/
theorem Merger.ctx_step {m m' : Merger α} {a : MAct α} (h : m.step a = some m') :
    m'.cancelled = m.cancelled ∨ (a = MAct.cancel ∧ m'.cancelled = true) := by
  cases a <;> simp only [Merger.step] at h <;> repeat' split at h
  all_goals first
    | (cases h; done)
    | (cases h; exact Or.inl rfl)
    | (cases h; exact Or.inr ⟨rfl, rfl⟩)

theorem Merger.ctx_mono {m m' : Merger α} {a : MAct α} (h : m.step a = some m')
    (hc : m.cancelled = true) : m'.cancelled = true := by
  rcases Merger.ctx_step h with h1 | h1
  · rw [h1]; exact hc
  · exact h1.2

/-- The effect of one action on the context: it is cancelled afterwards
exactly when it was before or the action is `Stop()`. -/
theorem Synchronizer.step_ctx {d : Deps α β π σ} {s s' : Synchronizer α β π σ} {a : Act α β}
    (h : s.step d a = some s') (hm : s.m.cancelled = s.cancelled) :
    s'.m.cancelled = s'.cancelled ∧
    (s.cancelled = true → s'.cancelled = true) ∧
    (s'.cancelled = true → s.cancelled = true ∨ a = Act.stop) ∧
    (s.stops ≤ s'.stops) ∧ (s.stops < s'.stops → s'.cancelled = true) := by
  have viaMerger : ∀ (x : MAct α) (f : Merger α → Synchronizer α β π σ),
      (∀ m', (f m').m = m' ∧ (f m').cancelled = s.cancelled ∧ (f m').stops = s.stops) →
      x ≠ MAct.cancel → (s.m.step x).map f = some s' →
      s'.m.cancelled = s'.cancelled ∧
      (s.cancelled = true → s'.cancelled = true) ∧
      (s'.cancelled = true → s.cancelled = true ∨ a = Act.stop) ∧
      (s.stops ≤ s'.stops) ∧ (s.stops < s'.stops → s'.cancelled = true) := by
    intro x f hf hx hmap
    obtain ⟨m', hm', rfl⟩ := Option.map_eq_some'.1 hmap
    obtain ⟨h1, h2, h3⟩ := hf m'
    have hc : m'.cancelled = s.m.cancelled := by
      rcases Merger.ctx_step hm' with h | h
      · exact h
      · exact absurd h.1 hx
    rw [h1, h2, h3, hc, hm]
    exact ⟨rfl, id, Or.inl, le_refl _, fun h => absurd h (lt_irrefl _)⟩
  cases a with
  | tEmit k e =>
    simp only [Synchronizer.step] at h
    split at h
    · cases h
    split at h
    · refine viaMerger _ _ ?_ ?_ h
      · intro _; exact ⟨rfl, rfl, rfl⟩
      · intro hx; cases hx
    · cases h
  | tClose k =>
    simp only [Synchronizer.step] at h
    split at h
    · cases h
    split at h
    · refine viaMerger _ _ ?_ ?_ h
      · intro _; exact ⟨rfl, rfl, rfl⟩
      · intro hx; cases hx
    · cases h
  | mrg x =>
    simp only [Synchronizer.step] at h
    split at h
    · cases h
    split at h
    · rename_i hg
      refine viaMerger _ _ ?_ ?_ h
      · intro _; exact ⟨rfl, rfl, rfl⟩
      · intro hx; rw [hx] at hg; simp [MAct.isEnv] at hg
    · cases h
  | tRecv i =>
    simp only [Synchronizer.step] at h
    split at h
    · cases h
    split at h
    · split at h
      · refine viaMerger _ _ ?_ ?_ h
        · intro _; exact ⟨rfl, rfl, rfl⟩
        · intro hx; cases hx
      · cases h
    · cases h
  | stop =>
    simp only [Synchronizer.step] at h
    split at h
    · cases h
    · cases h
      simp [Synchronizer.Stop]
  | start =>
    simp only [Synchronizer.step] at h
    split at h
    · cases h
    split at h
    · cases h
    · cases h
      simp [Synchronizer.Start, Synchronizer.sync, Synchronizer.syncTickets, Synchronizer.syncAccountCreated, mergeChannels]
  | _ =>
    simp only [Synchronizer.step] at h
    repeat' split at h
    all_goals first
      | (cases h; done)
      | (cases h; exact ⟨hm, id, Or.inl, le_refl _, fun h => absurd h (lt_irrefl _)⟩)

theorem Synchronizer.Reach.ctx {d : Deps α β π σ} {pool : π} {state : σ} {nets : List Nat}
    {s : Synchronizer α β π σ} (h : Synchronizer.Reach d (NewSynchronizer pool state nets) s) :
    s.m.cancelled = s.cancelled ∧ (0 < s.stops → s.cancelled = true) := by
  induction h with
  | init => simp [NewSynchronizer, mergeChannels]
  | @step s₁ s₂ a _ hs ih =>
    obtain ⟨h1, h2, _, h4, h5⟩ := Synchronizer.step_ctx hs ih.1
    refine ⟨h1, fun hpos => ?_⟩
    by_cases hlt : s₁.stops < s₂.stops
    · exact h5 hlt
    · exact h2 (ih.2 (by omega))

theorem Synchronizer.tFail_frame {d : Deps α β π σ} {s s' : Synchronizer α β π σ} {k : Nat}
    (h : s.step d (.tFail k) = some s') :
    s' = { s with
      tsrc := Function.update s.tsrc k Task.exited
      log := s.log ++ [Msg.listenerFailed (s.nets.getD k 0)] } ∧
    s.tsrc k = Task.running ∧ k < s.nets.length := by
  simp only [Synchronizer.step] at h
  split at h
  · cases h
  split at h
  · rename_i hg
    cases h
    exact ⟨rfl, hg.2.2, hg.2.1⟩
  · cases h

theorem update_thrice {ι τ : Type} [DecidableEq ι] (f : ι → τ) (k j : ι) (v : τ) :
    Function.update (Function.update (Function.update f k v) j v) k v =
      Function.update (Function.update f j v) k v := by
  funext x
  simp only [Function.update_apply]
  split_ifs <;> rfl

theorem Synchronizer.tFail_others {d : Deps α β π σ} (s : Synchronizer α β π σ) (k : Nat) (msg : Msg)
    (a : Act α β) (ha : a.ofTicketSource k = false) :
    (Synchronizer.step d { s with
        tsrc := Function.update s.tsrc k Task.exited
        log := s.log ++ [msg] } a).map (Synchronizer.maskTicketSource k) =
      (s.step d a).map (Synchronizer.maskTicketSource k) := by
  cases a <;> simp [Act.ofTicketSource] at ha <;>
    simp only [Synchronizer.step, Synchronizer.Start, Synchronizer.sync, Synchronizer.syncTickets, Synchronizer.syncAccountCreated,
      Synchronizer.Stop] <;>
    (try simp only [Function.update_noteq ha]) <;>
    split_ifs <;> (try split) <;>
    simp [Option.map_map, Function.comp_def, Synchronizer.maskTicketSource, update_thrice]

theorem Synchronizer.aFail_frame {d : Deps α β π σ} {s s' : Synchronizer α β π σ}
    (h : s.step d .aFail = some s') :
    s' = { s with asrc := Task.exited, log := s.log ++ [Msg.factoryListenerFailed] } ∧
    s.asrc = Task.running := by
  simp only [Synchronizer.step] at h
  split at h
  · cases h
  split at h
  · rename_i hg
    cases h
    exact ⟨rfl, hg.2⟩
  · cases h

theorem Synchronizer.aFail_others {d : Deps α β π σ} (s : Synchronizer α β π σ) (msg : Msg)
    (a : Act α β) (ha : a.ofAccountSource = false) :
    (Synchronizer.step d { s with asrc := Task.exited, log := s.log ++ [msg] } a).map
        Synchronizer.maskAccountSource =
      (s.step d a).map Synchronizer.maskAccountSource := by
  cases a <;> simp [Act.ofAccountSource] at ha <;>
    simp only [Synchronizer.step, Synchronizer.Start, Synchronizer.sync, Synchronizer.syncTickets, Synchronizer.syncAccountCreated,
      Synchronizer.Stop] <;>
    split_ifs <;> (try split) <;>
    simp [Option.map_map, Function.comp_def, Synchronizer.maskAccountSource]

/-- C7. Source failure isolation. When `WatchEntryPointEvent` of network `k`
(respectively `WatchAAFactoryEvent`) returns an error, the state afterwards
is the state before with one error appended to the log and that adapter
goroutine marked as exited: the context, the channels, every other adapter,
the merger, both loops and the other pipeline are unchanged. Moreover every
action of any other goroutine is enabled after the failure exactly when it
was enabled before, with the same effect. -/
theorem source_failure_isolation (d : Deps α β π σ) (s : Synchronizer α β π σ) :
    (∀ k s', s.step d (.tFail k) = some s' →
      s' = { s with
        tsrc := Function.update s.tsrc k Task.exited
        log := s.log ++ [Msg.listenerFailed (s.nets.getD k 0)] } ∧
      ∀ a : Act α β, a.ofTicketSource k = false →
        (s'.step d a).map (Synchronizer.maskTicketSource k) =
          (s.step d a).map (Synchronizer.maskTicketSource k)) ∧
    (∀ s', s.step d .aFail = some s' →
      s' = { s with asrc := Task.exited, log := s.log ++ [Msg.factoryListenerFailed] } ∧
      ∀ a : Act α β, a.ofAccountSource = false →
        (s'.step d a).map Synchronizer.maskAccountSource =
          (s.step d a).map Synchronizer.maskAccountSource) := by
  constructor
  · intro k s' h
    obtain ⟨h1, _, _⟩ := Synchronizer.tFail_frame h
    refine ⟨h1, fun a ha => ?_⟩
    rw [h1]
    exact Synchronizer.tFail_others s k _ a ha
  · intro s' h
    obtain ⟨h1, _⟩ := Synchronizer.aFail_frame h
    refine ⟨h1, fun a ha => ?_⟩
    rw [h1]
    exact Synchronizer.aFail_others s _ a ha

/-- No action of the system takes a cancelled context of the Synchronizer
back to active. -/
theorem Synchronizer.step_cancel_mono {d : Deps α β π σ} {s s' : Synchronizer α β π σ} {a : Act α β}
    (h : s.step d a = some s') (hc : s.cancelled = true) : s'.cancelled = true := by
  cases a <;>
    simp only [Synchronizer.step, Synchronizer.Start, Synchronizer.sync, Synchronizer.syncTickets, Synchronizer.syncAccountCreated,
      Synchronizer.Stop] at h <;> repeat' split at h
  all_goals first
    | (cases h; done)
    | (cases h; exact hc)
    | (cases h; rfl)
    | (obtain ⟨m', _, rfl⟩ := Option.map_eq_some'.1 h; exact hc)

theorem Synchronizer.exec_cancel_mono {d : Deps α β π σ} (s : Synchronizer α β π σ) (acts : List (Act α β))
    (hc : s.cancelled = true) : (s.exec d acts).cancelled = true := by
  induction acts generalizing s with
  | nil => exact hc
  | cons a as ih =>
    simp only [Synchronizer.exec]
    cases hs : s.step d a with
    | none => exact ih s hc
    | some s' => exact ih s' (Synchronizer.step_cancel_mono hs hc)

/-- C6. `Stop()` is idempotent and cancellation is one-shot. For every state
`s` of the Synchronizer: after `Stop()` the context is cancelled; a second
`Stop()` leaves the context, and the merger's view of it, as the first one
left them, and differs from the first only in the log line and the call
count; no action of the system (`Start`, `Stop`, a step of `sync`,
`syncTickets`, `syncAccountCreated` or of a goroutine of `mergeChannels`)
takes a cancelled context back to active, neither in one step nor along an
execution; every action keeps the merger's view of the context equal to the
Synchronizer's, and they are equal in every state reachable from
`NewSynchronizer`; and no action of `mergeChannels` takes its context back
to active. -/
theorem stop_idempotent_cancel_one_shot (d : Deps α β π σ) (s : Synchronizer α β π σ) :
    s.Stop.cancelled = true ∧
    s.Stop.Stop.cancelled = s.Stop.cancelled ∧
    s.Stop.Stop.m.cancelled = s.Stop.m.cancelled ∧
    { s.Stop.Stop with log := s.Stop.log, stops := s.Stop.stops } = s.Stop ∧
    (∀ a s', s.step d a = some s' → s.cancelled = true → s'.cancelled = true) ∧
    (∀ acts, s.cancelled = true → (s.exec d acts).cancelled = true) ∧
    (∀ a s', s.step d a = some s' → s.m.cancelled = s.cancelled →
      s'.m.cancelled = s'.cancelled) ∧
    (∀ pool state nets, Synchronizer.Reach d (NewSynchronizer pool state nets) s →
      s.m.cancelled = s.cancelled) ∧
    (∀ (m : Merger α) a m', m.step a = some m' → m.cancelled = true →
      m'.cancelled = true) := by
  refine ⟨rfl, rfl, rfl, rfl, ?_, ?_, ?_, ?_, ?_⟩
  · intro a s' hs hcan
    exact Synchronizer.step_cancel_mono hs hcan
  · intro acts hcan
    exact Synchronizer.exec_cancel_mono s acts hcan
  · intro a s' hs hm
    exact (Synchronizer.step_ctx hs hm).1
  · intro pool state nets h
    exact h.ctx.1
  · intro m a m' hs hcan
    exact Merger.ctx_mono hs hcan

/-- C5, as amended. `Stop()` fires the cancellation signal and returns at
once, without waiting for any goroutine: it is enabled in every state that
has not panicked and changes only the log, the context and the count of
returned `Stop()` calls. In every state reachable after a `Stop()` has
returned the context is cancelled, and every dispatch loop and every merger
forwarder that is still running has its `ctx.Done()` case enabled and
returns when it takes it. -/
theorem stop_fires_and_returns (d : Deps α β π σ) (pool : π) (state : σ)
    (nets : List Nat) (s : Synchronizer α β π σ)
    (h : Synchronizer.Reach d (NewSynchronizer pool state nets) s) :
    (s.panicked = false → s.m.panicked = false → s.step d .stop = some s.Stop) ∧
    s.Stop = { s with
      log := s.log ++ [Msg.syncStop]
      cancelled := true
      m := { s.m with cancelled := true }
      stops := s.stops + 1 } ∧
    (0 < s.stops → s.cancelled = true ∧ s.m.cancelled = true) ∧
    (0 < s.stops → s.started = true → s.panicked = false → s.m.panicked = false →
      (s.tloop.exited = false →
        (s.step d .tDone).map (fun t => t.tloop.exited) = some true) ∧
      (s.aloop.exited = false →
        (s.step d .aDone).map (fun t => t.aloop.exited) = some true) ∧
      (∀ i, i < s.m.n → s.m.fwd i = Fwd.recv →
        (s.step d (.mrg (.seeDoneRecv i))).map (fun t => t.m.fwd i) = some Fwd.done) ∧
      (∀ i t, i < s.m.n → s.m.fwd i = Fwd.send t →
        (s.step d (.mrg (.seeDoneSend i))).map (fun t => t.m.fwd i) = some Fwd.done)) := by
  obtain ⟨hm, hst⟩ := h.ctx
  refine ⟨?_, rfl, ?_, ?_⟩
  · intro h1 h2
    simp [Synchronizer.step, h1, h2]
  · intro hpos
    have := hst hpos
    exact ⟨this, by rw [hm]; exact this⟩
  · intro hpos hs hp hmp
    have hc := hst hpos
    have hmc : s.m.cancelled = true := by rw [hm]; exact hc
    refine ⟨?_, ?_, ?_, ?_⟩
    · intro he
      simp [Synchronizer.step, hp, hmp, hs, he, hc, syncTicketsIter]
    · intro he
      simp [Synchronizer.step, hp, hmp, hs, he, hc, syncAccountCreatedIter]
    · intro i hi hf
      simp [Synchronizer.step, hp, hmp, hs, MAct.isEnv, MAct.isDeliver, Merger.step, hi, hmc, hf,
        Merger.ret]
    · intro i t hi hf
      simp [Synchronizer.step, hp, hmp, hs, MAct.isEnv, MAct.isDeliver, Merger.step, hi, hmc, hf,
        Merger.ret]

/-- C5, the claim as stated fails. After `Start()`, one mapping sent by the
account watcher and `Stop()`: `Stop()` has returned and the context is
cancelled, yet both dispatch loops, the forwarders and the supervisor are
still running, nothing has been applied so far, and the loop of
`syncAccountCreated` can still take its receive case and call
`AddNewMapping` on the pending mapping. -/
theorem stop_returns_before_tasks_exit :
    (demoSync.exec demoDeps [.start, .aEmit 5, .stop]).stops = 1 ∧
    (demoSync.exec demoDeps [.start, .aEmit 5, .stop]).cancelled = true ∧
    (demoSync.exec demoDeps [.start, .aEmit 5, .stop]).aloop.exited = false ∧
    (demoSync.exec demoDeps [.start, .aEmit 5, .stop]).tloop.exited = false ∧
    (demoSync.exec demoDeps [.start, .aEmit 5, .stop]).m.fwd 0 = Fwd.recv ∧
    (demoSync.exec demoDeps [.start, .aEmit 5, .stop]).m.sup = Sup.wait ∧
    (demoSync.exec demoDeps [.start, .aEmit 5, .stop]).aloop.applied = [] ∧
    ((demoSync.exec demoDeps [.start, .aEmit 5, .stop]).step demoDeps .aRecv).map
      (fun t => (t.aloop.applied, t.aloop.store)) = some ([5], [5]) := by
  decide

/-- Once the loop of `syncAccountCreated` has returned, no action changes
it, and a goroutine blocked in `ch <- mappingInsert` stays blocked. -/
theorem injector_stuck_step {d : Deps α β π σ} {s s' : Synchronizer α β π σ} {a : Act α β}
    (h : s.step d a = some s') (hst : s.started = true) (he : s.aloop.exited = true)
    (hi : s.inj = Inj.sending) :
    s'.started = true ∧ s'.aloop = s.aloop ∧ s'.inj = Inj.sending := by
  cases a <;>
    simp only [Synchronizer.step, Synchronizer.Start, Synchronizer.sync, Synchronizer.syncTickets, Synchronizer.syncAccountCreated,
      Synchronizer.Stop] at h <;> repeat' split at h
  all_goals first
    | (cases h; done)
    | (cases h; exact ⟨hst, rfl, hi⟩)
    | (obtain ⟨m', _, rfl⟩ := Option.map_eq_some'.1 h; exact ⟨hst, rfl, hi⟩)
    | simp_all

theorem injector_stuck_exec {d : Deps α β π σ} (s : Synchronizer α β π σ) (acts : List (Act α β))
    (hst : s.started = true) (he : s.aloop.exited = true) (hi : s.inj = Inj.sending) :
    (s.exec d acts).aloop = s.aloop ∧ (s.exec d acts).inj = Inj.sending := by
  induction acts generalizing s with
  | nil => exact ⟨rfl, hi⟩
  | cons a as ih =>
    simp only [Synchronizer.exec]
    cases hs : s.step d a with
    | none => exact ih s hst he hi
    | some s' =>
      obtain ⟨h0, h1, h2⟩ := injector_stuck_step hs hst he hi
      obtain ⟨h3, h4⟩ := ih s' h0 (by rw [h1]; exact he) h2
      exact ⟨h3.trans h1, h4⟩

/-- C9 (the code at the failing input). `Stop()` is called before the sleep
of line 116 ends: the loop of `syncAccountCreated` returns through its
`ctx.Done()` case, then the goroutine of lines 114-122 reaches
`ch <- mappingInsert`. From then on, whatever happens, that goroutine is
still blocked in the send and its mapping is never applied. -/
theorem injector_send_blocks_forever (acts : List (Act Nat Nat)) :
    (demoSync.exec demoDeps [.start, .stop, .aDone, .injWake]).cancelled = true ∧
    (demoSync.exec demoDeps [.start, .stop, .aDone, .injWake]).panicked = false ∧
    (demoSync.exec demoDeps [.start, .stop, .aDone, .injWake]).aloop.exited = true ∧
    (demoSync.exec demoDeps [.start, .stop, .aDone, .injWake]).inj = Inj.sending ∧
    (demoSync.exec demoDeps [.start, .stop, .aDone, .injWake]).ach.queue = [(true, 7)] ∧
    ((demoSync.exec demoDeps [.start, .stop, .aDone, .injWake]).exec demoDeps acts).inj =
      Inj.sending ∧
    ((demoSync.exec demoDeps [.start, .stop, .aDone, .injWake]).exec demoDeps
      acts).aloop.applied = [] := by
  refine ⟨by decide, by decide, by decide, by decide, by decide, ?_, ?_⟩
  · exact (injector_stuck_exec _ acts (by decide) (by decide) (by decide)).2
  · rw [(injector_stuck_exec _ acts (by decide) (by decide) (by decide)).1]
    decide

end SyncProofs

/-! ## Examples -/

/-- Two sources of three tickets each, no cancellation: the run closes the
output, and the six tickets are delivered, none missing and none repeated. -/
theorem mergeChannels_no_loss_no_duplication_witness :
    Merger.Reach twoInputs (twoInputs.exec sixTickets) ∧
    (twoInputs.exec sixTickets).cancelled = false ∧
    (twoInputs.exec sixTickets).outClosed = true ∧
    (twoInputs.exec sixTickets).out.map Prod.snd = [21, 11, 12, 22, 13, 23] ∧
    ((twoInputs.exec sixTickets).out.map Prod.snd).Perm [11, 12, 13, 21, 22, 23] :=
  ⟨Merger.Reach.init.after _, by decide, by decide, by decide,
    ((mergeChannels_no_loss_no_duplication false [Chan.fresh, Chan.fresh] _
      (Merger.Reach.init.after sixTickets)).2.2.2.1 (by decide) (Or.inl (by decide))).2⟩

/-- After seven steps of the run of two sources, the output holds one ticket
of each source and the ticket of source 0 is a prefix of what it sent. -/
theorem mergeChannels_per_source_order_witness :
    Merger.Reach twoInputs (twoInputs.exec (sixTickets.take 7)) ∧
    (twoInputs.exec (sixTickets.take 7)).out = [(1, 21), (0, 11)] ∧
    (twoInputs.exec (sixTickets.take 7)).sent 0 = [11, 12] ∧
    [11] <+: [11, 12] :=
  ⟨Merger.Reach.init.after _, by decide, by decide,
    (mergeChannels_per_source_order false [Chan.fresh, Chan.fresh] _
      (Merger.Reach.init.after (sixTickets.take 7)) 0).1⟩

/-- A single input that closes without sending, and no input at all: the
output closes with nothing delivered. -/
theorem mergeChannels_closure_witness :
    Merger.Reach oneInput (oneInput.exec [.closeIn 0, .seeClosed 0, .wgWait, .closeOut]) ∧
    (oneInput.exec [.closeIn 0, .seeClosed 0, .wgWait, .closeOut]).outClosed = true ∧
    (oneInput.exec [.closeIn 0, .seeClosed 0, .wgWait, .closeOut]).out = [] ∧
    (noInputs.exec [.wgWait, .closeOut]).outClosed = true ∧
    (noInputs.exec [.wgWait, .closeOut]).out = [] ∧
    ((oneInput.exec [.closeIn 0, .seeClosed 0, .wgWait, .closeOut]).cancelled = true ∨
      ∀ i, i < 1 →
        ((oneInput.exec [.closeIn 0, .seeClosed 0, .wgWait, .closeOut]).ins i).closed = true ∧
        ((oneInput.exec [.closeIn 0, .seeClosed 0, .wgWait, .closeOut]).ins i).queue = []) :=
  ⟨Merger.Reach.init.after _, by decide, by decide, by decide, by decide,
    ((mergeChannels_closure false [Chan.fresh] _
      (Merger.Reach.init.after [.closeIn 0, .seeClosed 0, .wgWait, .closeOut])).1
        (by decide)).2⟩

/-- At the end of the run of two sources the output has been closed once,
nothing panicked and `close(out)` is not enabled again. -/
theorem mergeChannels_channel_safety_witness :
    Merger.Reach twoInputs (twoInputs.exec sixTickets) ∧
    (twoInputs.exec sixTickets).closes = 1 ∧
    (twoInputs.exec sixTickets).panicked = false ∧
    (twoInputs.exec sixTickets).step MAct.closeOut = none :=
  ⟨Merger.Reach.init.after _, by decide,
    (mergeChannels_channel_safety false [Chan.fresh, Chan.fresh] _
      (Merger.Reach.init.after sixTickets)).1,
    ((mergeChannels_channel_safety false [Chan.fresh, Chan.fresh] _
      (Merger.Reach.init.after sixTickets)).2.2.2.2.2.2.2 (by decide)).1⟩

/-- After `Start()`, one pending mapping and `Stop()`: the context is
cancelled and the loop of `syncAccountCreated` can return through its
`ctx.Done()` case. -/
theorem stop_fires_and_returns_witness :
    Synchronizer.Reach demoDeps demoSync (demoSync.exec demoDeps [.start, .aEmit 5, .stop]) ∧
    0 < (demoSync.exec demoDeps [.start, .aEmit 5, .stop]).stops ∧
    (demoSync.exec demoDeps [.start, .aEmit 5, .stop]).cancelled = true ∧
    (demoSync.exec demoDeps [.start, .aEmit 5, .stop]).m.cancelled = true ∧
    ((demoSync.exec demoDeps [.start, .aEmit 5, .stop]).step demoDeps .aDone).map
      (fun t => t.aloop.exited) = some true :=
  ⟨Synchronizer.Reach.init.afterSync _, by decide,
    ((stop_fires_and_returns demoDeps [] [] [1] _
      (Synchronizer.Reach.init.afterSync [.start, .aEmit 5, .stop])).2.2.1 (by decide)).1,
    ((stop_fires_and_returns demoDeps [] [] [1] _
      (Synchronizer.Reach.init.afterSync [.start, .aEmit 5, .stop])).2.2.1 (by decide)).2,
    ((stop_fires_and_returns demoDeps [] [] [1] _
      (Synchronizer.Reach.init.afterSync [.start, .aEmit 5, .stop])).2.2.2 (by decide) (by decide)
        (by decide) (by decide)).2.1 (by decide)⟩

/-- After `Start()` and `Stop()`: a second `Stop()` changes nothing about the
context, and every action leaves it cancelled. -/
theorem stop_idempotent_cancel_one_shot_witness :
    (demoSync.exec demoDeps [.start, .stop]).cancelled = true ∧
    (demoSync.exec demoDeps [.start, .stop, .stop]).cancelled = true ∧
    (demoSync.exec demoDeps [.start, .stop]).Stop.Stop.cancelled =
      (demoSync.exec demoDeps [.start, .stop]).Stop.cancelled ∧
    (∀ a s', (demoSync.exec demoDeps [.start, .stop]).step demoDeps a = some s' →
      s'.cancelled = true) ∧
    (demoSync.exec demoDeps [.start, .stop]).m.cancelled =
      (demoSync.exec demoDeps [.start, .stop]).cancelled :=
  ⟨by decide, by decide,
    (stop_idempotent_cancel_one_shot demoDeps (demoSync.exec demoDeps [.start, .stop])).2.1,
    fun a s' hs =>
      (stop_idempotent_cancel_one_shot demoDeps
        (demoSync.exec demoDeps [.start, .stop])).2.2.2.2.1 a s' hs (by decide),
    (stop_idempotent_cancel_one_shot demoDeps
      (demoSync.exec demoDeps [.start, .stop])).2.2.2.2.2.2.2.1 [] [] [1]
        (Synchronizer.Reach.init.afterSync [.start, .stop])⟩

/-- The watcher of the only network fails right after `Start()`: the context
stays active, one error is logged, and every other goroutine can step as
before. -/
theorem source_failure_isolation_witness :
    (demoSync.exec demoDeps [.start]).step demoDeps (.tFail 0) =
      some (demoSync.exec demoDeps [.start, .tFail 0]) ∧
    (demoSync.exec demoDeps [.start, .tFail 0]).cancelled = false ∧
    (demoSync.exec demoDeps [.start, .tFail 0]).tsrc 0 = Task.exited ∧
    (demoSync.exec demoDeps [.start, .tFail 0]).log =
      [Msg.syncStart, Msg.componentTickets, Msg.componentAccounts, Msg.listenerFailed 1] ∧
    (∀ a : Act Nat Nat, a.ofTicketSource 0 = false →
      ((demoSync.exec demoDeps [.start, .tFail 0]).step demoDeps a).map
          (Synchronizer.maskTicketSource 0) =
        ((demoSync.exec demoDeps [.start]).step demoDeps a).map (Synchronizer.maskTicketSource 0)) :=
  ⟨rfl, by decide, by decide, by decide,
    ((source_failure_isolation demoDeps (demoSync.exec demoDeps [.start])).1 0 _ rfl).2⟩

end synchronizer
